import Mathlib

/-!
Verification of `create_downloadable_backup.py`.

The script is a one-shot filesystem utility.  We embed the filesystem as a
finite tree of named entries (`Entry`), rooted at the process working
directory, and translate each library call the script performs:

* `os.makedirs(p, exist_ok=True)`       → `Entry.makedirs`
* `os.path.exists(p)`                   → `(Entry.lookup · p).isSome`
* `shutil.copy2(src, dst)`              → `Entry.copy2` (content and mtime)
* `shutil.copytree(s, d, dirs_exist_ok=True)` → `Entry.copytree`
* `open(p, "w"); f.write(text)`         → `Entry.writeFileAt`
* `os.walk` size tally                  → `childrenSize`
* `os.listdir(p)`                       → children of the directory entry

Standard-output lines are modelled as structured events (`OutLine`) carrying
the data each print statement interpolates; artifact files are written with
modification time `0` (no claim concerns artifact timestamps).  Fallible
calls return `Except Err`; an uncaught Python exception is the `.error` case.
-/

set_option maxHeartbeats 1000000

namespace Backup

/-- A path relative to the process working directory, as components. -/
abbrev Path := List String

/-- A filesystem entry: a regular file (content plus modification time) or a
directory with named children. -/
inductive Entry : Type where
  | file (content : String) (mtime : Nat) : Entry
  | dir (children : List (String × Entry)) : Entry
deriving Repr

/-- The exceptions the script can hit (Python `FileExistsError`,
`IsADirectoryError`, `NotADirectoryError`, `FileNotFoundError`). -/
inductive Err : Type where
  | fileExists : Err
  | isADirectory : Err
  | notADirectory : Err
  | fileNotFound : Err
deriving Repr, DecidableEq

/-- First entry with the given name in a directory's child list. -/
def findChild : List (String × Entry) → String → Option Entry
  | [], _ => none
  | (m, c) :: cs, n => if m = n then some c else findChild cs n

/-- Replace the first child with the given name, or append a new one. -/
def setChild : List (String × Entry) → String → Entry → List (String × Entry)
  | [], n, e => [(n, e)]
  | (m, c) :: cs, n, e => if m = n then (n, e) :: cs else (m, c) :: setChild cs n e

/-- Resolve a path; `none` when any component is missing or crosses a file. -/
def Entry.lookup : Entry → Path → Option Entry
  | e, [] => some e
  | .file _ _, _ :: _ => none
  | .dir cs, n :: p =>
    match findChild cs n with
    | some c => Entry.lookup c p
    | none => none

/-- `os.makedirs(path, exist_ok=True)`: create every missing component as a
directory; an existing directory is fine, an existing file raises. -/
def Entry.makedirs : Entry → Path → Except Err Entry
  | .dir cs, [] => .ok (.dir cs)
  | .file _ _, [] => .error .fileExists
  | .file _ _, _ :: _ => .error .notADirectory
  | .dir cs, n :: p =>
    match findChild cs n with
    | some c =>
      match Entry.makedirs c p with
      | .ok c2 => .ok (.dir (setChild cs n c2))
      | .error e => .error e
    | none =>
      match Entry.makedirs (.dir []) p with
      | .ok c2 => .ok (.dir (setChild cs n c2))
      | .error e => .error e

/-- `open(path, "w")` followed by a full write: overwrite or create the file;
writing over a directory raises, a missing parent raises, parents are not
created. -/
def Entry.writeFileAt : Entry → Path → String → Nat → Except Err Entry
  | _, [], _, _ => .error .isADirectory
  | .file _ _, _ :: _, _, _ => .error .notADirectory
  | .dir cs, [n], content, t =>
    match findChild cs n with
    | some (.dir _) => .error .isADirectory
    | _ => .ok (.dir (setChild cs n (.file content t)))
  | .dir cs, n :: p :: q, content, t =>
    match findChild cs n with
    | some c =>
      match Entry.writeFileAt c (p :: q) content t with
      | .ok c2 => .ok (.dir (setChild cs n c2))
      | .error e => .error e
    | none => .error .fileNotFound

/-- `shutil.copy2(src, dst)`: copy a regular file with its metadata; when
`dst` is a directory the file lands inside it under the source basename; a
directory source raises `IsADirectoryError`. -/
def Entry.copy2 (fs : Entry) (src dst : Path) : Except Err Entry :=
  match fs.lookup src with
  | none => .error .fileNotFound
  | some (.dir _) => .error .isADirectory
  | some (.file content t) =>
    let target : Path :=
      match fs.lookup dst with
      | some (.dir _) => dst ++ [src.getLastD ""]
      | _ => dst
    fs.writeFileAt target content t

mutual
/-- Merge one named source entry onto an optional existing destination entry,
the way `shutil.copytree(..., dirs_exist_ok=True)` handles that entry.  A
regular-file entry is handed to `shutil.copy2` with the same-named
destination path, and `copy2` re-targets a destination that is a directory:
the file is then written silently inside that directory under its own
basename, unless that inner name is itself a directory, in which case the
nested `copyfile` raises `IsADirectoryError`.  A directory source meeting a
destination file raises (`os.makedirs` inside the recursive call); directory
trees are merged; destination-only entries stay. -/
def copytreeEntry : String → Entry → Option Entry → Except Err Entry
  | n, .file c t, d =>
    match d with
    | some (.dir ds) =>
      match findChild ds n with
      | some (.dir _) => .error .isADirectory
      | _ => .ok (.dir (setChild ds n (.file c t)))
    | _ => .ok (.file c t)
  | _, .dir cs, d =>
    match d with
    | some (.file _ _) => .error .fileExists
    | some (.dir ds) => copytreeChildren cs ds
    | none => copytreeChildren cs []

/-- Fold of `copytreeEntry` over the source children, threading the
destination child list. -/
def copytreeChildren : List (String × Entry) → List (String × Entry) → Except Err Entry
  | [], ds => .ok (.dir ds)
  | (n, c) :: cs, ds =>
    match copytreeEntry n c (findChild ds n) with
    | .ok c2 => copytreeChildren cs (setChild ds n c2)
    | .error e => .error e
end

/-- Store an entry at a path, creating missing intermediate directories the
way `os.makedirs` inside `copytree` does; an intermediate file raises. -/
def Entry.setEntryCreating : Entry → Path → Entry → Except Err Entry
  | _, [], e => .ok e
  | .file _ _, _ :: _, _ => .error .notADirectory
  | .dir cs, [n], e => .ok (.dir (setChild cs n e))
  | .dir cs, n :: p :: q, e =>
    match findChild cs n with
    | some c =>
      match Entry.setEntryCreating c (p :: q) e with
      | .ok c2 => .ok (.dir (setChild cs n c2))
      | .error er => .error er
    | none =>
      match Entry.setEntryCreating (.dir []) (p :: q) e with
      | .ok c2 => .ok (.dir (setChild cs n c2))
      | .error er => .error er

/-- `shutil.copytree(src, dst, dirs_exist_ok=True)` at the filesystem level:
the source must be a directory; its tree is merged onto whatever is at
`dst`, and the merged tree is stored at `dst`. -/
def Entry.copytree (fs : Entry) (src dst : Path) : Except Err Entry :=
  match fs.lookup src with
  | none => .error .fileNotFound
  | some (.file _ _) => .error .notADirectory
  | some (.dir cs0) =>
    match copytreeEntry "" (.dir cs0) (fs.lookup dst) with
    | .ok merged => fs.setEntryCreating dst merged
    | .error e => .error e

mutual
/-- Total byte size of every regular file in a subtree (the `os.walk` sum;
file size is the content length). -/
def Entry.totalSize : Entry → Nat
  | .file c _ => c.length
  | .dir cs => childrenSize cs

/-- Sum of `Entry.totalSize` over a child list. -/
def childrenSize : List (String × Entry) → Nat
  | [] => 0
  | (_, c) :: cs => Entry.totalSize c + childrenSize cs
end

mutual
/-- Well-formedness of a tree as a real filesystem: sibling names are
distinct at every level. -/
def Entry.wfb : Entry → Bool
  | .file _ _ => true
  | .dir cs => decide ((cs.map Prod.fst).Nodup) && childrenWfb cs

/-- `Entry.wfb` over a child list. -/
def childrenWfb : List (String × Entry) → Bool
  | [] => true
  | (_, c) :: cs => Entry.wfb c && childrenWfb cs
end

/-- Lookup of a path through an optional entry (`none` = nothing there). -/
def olookup : Option Entry → Path → Option Entry
  | none, _ => none
  | some e, p => e.lookup p

/-- Last component of a path, with a fallback for the empty path: the name
under which `copy2` nests a file into a same-named destination directory. -/
def lastD : Path → String → String
  | [], n => n
  | a :: p, _ => lastD p a

/-! ## The script's constants (lines 15-31, 41 of the source) -/

/-- `backup_dir = "backup_20250729_014531"` (SourceRoot). -/
def backup_dir : String := "backup_20250729_014531"

/-- `output_dir = "downloadable_backup"` (OutputRoot). -/
def output_dir : String := "downloadable_backup"

/-- The 8-entry `essential_files` list. -/
def essential_files : List String :=
  ["package.json",
   "package-lock.json",
   "VPS_MIGRATION_STEPS.md",
   "deploy_to_vps.sh",
   ".env.example",
   "nginx.conf",
   "members_data.csv",
   "users_data.csv"]

/-- The `dirs_to_copy` list. -/
def dirs_to_copy : List String := ["server", "shared", "client/src"]

/-- Slash-splitting of a character list, accumulating the current component
in reverse. -/
def splitPathAux : List Char → List Char → Path
  | [], acc => [String.mk acc.reverse]
  | c :: cs, acc =>
    if c = '/' then String.mk acc.reverse :: splitPathAux cs []
    else splitPathAux cs (c :: acc)

/-- `os.path.join` produces slash-separated paths; this yields the components
of a relative path string. -/
def splitPath (s : String) : Path := splitPathAux s.toList []

/-! ## The summary artifact (lines 52-69) -/

/-- The in-memory `summary` dictionary's shape. -/
structure Summary : Type where
  backup_date : String
  total_members : String
  total_users : String
  upload_files : String
  backup_size : String
  contents : List String
  note : String
deriving Repr, DecidableEq

/-- The `summary` dictionary: `backup_date` is `datetime.now().isoformat()`,
every other field is the literal from the source. -/
def summary (now : String) : Summary :=
  { backup_date := now
    total_members := "996"
    total_users := "46"
    upload_files := "3442"
    backup_size := "3.3GB"
    contents :=
      ["Application source code",
       "Database exports (CSV)",
       "Configuration files",
       "Deployment scripts",
       "Migration guides"]
    note := "Upload files (photos) need separate transfer due to size" }

/-- Hex digit used by the JSON string escaper. -/
def hexDigit (n : Nat) : Char :=
  if n < 10 then Char.ofNat (48 + n) else Char.ofNat (87 + n)

/-- JSON escaping of one character, as `json.dump` performs it on the
character sets reachable here. -/
def jsonEscapeChar (c : Char) : String :=
  if c = '"' then "\\\""
  else if c = '\\' then "\\\\"
  else if c = '\n' then "\\n"
  else if c = '\t' then "\\t"
  else if c = '\x0d' then "\\r"
  else if c.toNat < 32 then "\\u00" ++ String.mk [hexDigit (c.toNat / 16), hexDigit (c.toNat % 16)]
  else String.singleton c

/-- JSON escaping of a string body. -/
def jsonEscape (s : String) : String := String.join (s.toList.map jsonEscapeChar)

/-- A JSON string literal. -/
def jsonStr (s : String) : String := "\"" ++ jsonEscape s ++ "\""

/-- `json.dump(summary, f, indent=2)`: the exact text written to
`BACKUP_SUMMARY.json`. -/
def summaryJson (s : Summary) : String :=
  "\x7b\n  \"backup_date\": " ++ jsonStr s.backup_date ++
  ",\n  \"total_members\": " ++ jsonStr s.total_members ++
  ",\n  \"total_users\": " ++ jsonStr s.total_users ++
  ",\n  \"upload_files\": " ++ jsonStr s.upload_files ++
  ",\n  \"backup_size\": " ++ jsonStr s.backup_size ++
  ",\n  \"contents\": [\n" ++
  String.intercalate ",\n" (s.contents.map (fun c => "    " ++ jsonStr c)) ++
  "\n  ],\n  \"note\": " ++ jsonStr s.note ++ "\n\x7d"

/-- The fixed `instructions` text written verbatim to `README.txt`
(lines 72-97 of the source; two lines carry trailing double spaces). -/
def instructions : String :=
  "# UDRG Backup - Download Instructions\n\n## What\x27s Included:\n- ✅ Complete application source code\n- ✅ Database exports (996 members, 46 users)  \n- ✅ Configuration and deployment files\n- ✅ Migration guides and scripts\n\n## What\x27s NOT Included (due to size):\n- ❌ Upload files (3,442 photos - 3GB+)\n\n## To Get Upload Files:\n1. Upload files are in: backup_20250729_014531/uploads/\n2. You\x27ll need to transfer these separately\n3. Or use the migration_package/uploads/ directory\n\n## Deployment:\n1. Use the files in this backup\n2. Follow VPS_MIGRATION_STEPS.md  \n3. Transfer upload files separately to your VPS\n\n## File Sizes:\n- This backup: ~50MB (without uploads)\n- Upload files: ~3GB (transfer separately)\n- Total system: ~3.3GB\n"

/-! ## The run -/

/-- One structured stdout event per `print` in the source, carrying the data
the corresponding f-string interpolates. -/
inductive OutLine : Type where
  | creating : OutLine
  | copyingFiles : OutLine
  | fileCopied (name : String) : OutLine
  | copyingDirs : OutLine
  | dirCopied (name : String) : OutLine
  | done : OutLine
  | location (d : String) : OutLine
  | sizeReport (bytes : Nat) : OutLine
  | filesReport (count : Nat) : OutLine
deriving Repr, DecidableEq

/-- The six sequential phases of the script body. -/
inductive Step : Type where
  | ensureDir : Step
  | copyFiles : Step
  | copyDirs : Step
  | writeSummary : Step
  | writeInstructions : Step
  | report : Step
deriving Repr, DecidableEq

/-- Run state: the filesystem, the stdout events so far, and the phases
entered so far. -/
structure S : Type where
  fs : Entry
  out : List OutLine
  log : List Step
deriving Repr

/-- Record that a phase was entered. -/
def S.addLog (s : S) (t : Step) : S := { s with log := s.log ++ [t] }

/-- Line 19: `os.makedirs(output_dir, exist_ok=True)`. -/
def step_ensureDir (s : S) : Except Err S :=
  match s.fs.makedirs [output_dir] with
  | .ok fs2 => .ok { s with fs := fs2 }
  | .error e => .error e

/-- Lines 34-38: the `for file in essential_files` loop. -/
def copyFilesLoop : List String → S → Except Err S
  | [], s => .ok s
  | f :: rest, s =>
    if (s.fs.lookup (backup_dir :: splitPath f)).isSome then
      match s.fs.copy2 (backup_dir :: splitPath f) [output_dir] with
      | .ok fs2 => copyFilesLoop rest { s with fs := fs2, out := s.out ++ [OutLine.fileCopied f] }
      | .error e => .error e
    else
      copyFilesLoop rest s

/-- Lines 33-38: banner print then the essential-file loop. -/
def step_copyFiles (s : S) : Except Err S :=
  copyFilesLoop essential_files { s with out := s.out ++ [OutLine.copyingFiles] }

/-- Lines 44-49: the `for dir_name in dirs_to_copy` loop. -/
def copyDirsLoop : List String → S → Except Err S
  | [], s => .ok s
  | d :: rest, s =>
    if (s.fs.lookup (backup_dir :: splitPath d)).isSome then
      match s.fs.copytree (backup_dir :: splitPath d) (output_dir :: splitPath d) with
      | .ok fs2 => copyDirsLoop rest { s with fs := fs2, out := s.out ++ [OutLine.dirCopied d] }
      | .error e => .error e
    else
      copyDirsLoop rest s

/-- Lines 43-49: banner print then the directory loop. -/
def step_copyDirs (s : S) : Except Err S :=
  copyDirsLoop dirs_to_copy { s with out := s.out ++ [OutLine.copyingDirs] }

/-- Lines 68-69: write `BACKUP_SUMMARY.json`. -/
def step_writeSummary (now : String) (s : S) : Except Err S :=
  match s.fs.writeFileAt [output_dir, "BACKUP_SUMMARY.json"] (summaryJson (summary now)) 0 with
  | .ok fs2 => .ok { s with fs := fs2 }
  | .error e => .error e

/-- Lines 99-100: write `README.txt`. -/
def step_writeInstructions (s : S) : Except Err S :=
  match s.fs.writeFileAt [output_dir, "README.txt"] instructions 0 with
  | .ok fs2 => .ok { s with fs := fs2 }
  | .error e => .error e

/-- Lines 103-112: the `os.walk` size tally, `os.listdir` count, and the
four result prints. -/
def step_report (s : S) : Except Err S :=
  match s.fs.lookup [output_dir] with
  | some (.dir cs) =>
    .ok { s with out := s.out ++
          [OutLine.done, OutLine.location output_dir,
           OutLine.sizeReport (childrenSize cs), OutLine.filesReport cs.length] }
  | _ => .error .fileNotFound

/-- Sequence one phase after the accumulated run, short-circuiting on an
uncaught exception; the phase is logged when entered. -/
def runStep (tag : Step) (f : S → Except Err S) : S × Option Err → S × Option Err
  | (s, some e) => (s, some e)
  | (s, none) =>
    match f (s.addLog tag) with
    | .ok s2 => (s2, none)
    | .error e => (s.addLog tag, some e)

/-- Line 13: the opening banner print. -/
def initS (fs0 : Entry) : S := { fs := fs0, out := [OutLine.creating], log := [] }

/-- The body of `create_downloadable_backup`, phase by phase. -/
def runBody (now : String) (fs0 : Entry) : S × Option Err :=
  runStep .report step_report
    (runStep .writeInstructions step_writeInstructions
      (runStep .writeSummary (step_writeSummary now)
        (runStep .copyDirs step_copyDirs
          (runStep .copyFiles step_copyFiles
            (runStep .ensureDir step_ensureDir (initS fs0, none))))))

/-- Outcome of a call: final state, uncaught exception if any, and the
returned value (line 114 returns `output_dir` on the success path only). -/
structure RunResult : Type where
  state : S
  err : Option Err
  ret : Option String
deriving Repr

/-- `create_downloadable_backup()`: run the body against an initial
filesystem, with `now` the value of `datetime.now().isoformat()`. -/
def create_downloadable_backup (now : String) (fs0 : Entry) : RunResult :=
  match runBody now fs0 with
  | (s, none) => { state := s, err := none, ret := some output_dir }
  | (s, some e) => { state := s, err := some e, ret := none }

/-- Invariant maintained across the copy phases: the root is a directory and
the output directory exists inside it. -/
def outShape (s : S) : Prop :=
  ∃ cs ds, s.fs = Entry.dir cs ∧ findChild cs output_dir = some (Entry.dir ds)

/-- First component of a relative directory path (the only child of the
output directory a `copytree` call for that path can touch). -/
def dstHead (d : String) : String := (splitPath d).headD ""

/-- Concrete source tree used by several witness instances: the backup
directory holds one regular file and one subdirectory. -/
def fsW : Entry :=
  Entry.dir [(backup_dir, Entry.dir
    [("package.json", Entry.file "0123456789" 5),
     ("server", Entry.dir [("index.js", Entry.file "code" 7)])])]

/-- Source tree for the C7 scenario: only `package.json` (10 bytes), no
directories, and no pre-existing output directory. -/
def fs7 : Entry :=
  Entry.dir [(backup_dir, Entry.dir [("package.json", Entry.file "0123456789" 5)])]

/-- Source tree where `package.json` exists but is a directory. -/
def fsW9 : Entry :=
  Entry.dir [(backup_dir, Entry.dir [("package.json", Entry.dir [])])]

/-- Tree refuting the original directory-merge claim: the source holds the
regular file `server/x` while the destination already holds a directory at
`downloadable_backup/server/x`. -/
def fsC2 : Entry :=
  Entry.dir
    [(backup_dir, Entry.dir [("server", Entry.dir [("x", Entry.file "data" 3)])]),
     (output_dir, Entry.dir [("server", Entry.dir [("x", Entry.dir [])])])]

/-! ## Basic lemmas about child lists and lookup -/

theorem findChild_setChild_self (cs : List (String × Entry)) (n : String) (e : Entry) :
    findChild (setChild cs n e) n = some e := by
  induction cs with
  | nil => simp [setChild, findChild]
  | cons hd tl ih =>
    obtain ⟨m, c⟩ := hd
    by_cases h : m = n
    · simp [setChild, findChild, h]
    · simp [setChild, findChild, h, ih]

theorem findChild_setChild_ne (cs : List (String × Entry)) (n m : String) (e : Entry)
    (h : m ≠ n) : findChild (setChild cs n e) m = findChild cs m := by
  have hnm : n ≠ m := fun he => h he.symm
  induction cs with
  | nil => simp [setChild, findChild, hnm]
  | cons hd tl ih =>
    obtain ⟨k, c⟩ := hd
    by_cases hk : k = n
    · subst hk
      simp [setChild, findChild, hnm]
    · simp only [setChild, if_neg hk, findChild]
      by_cases hm : k = m
      · simp [hm]
      · simp [hm, ih]

theorem setChild_eq_of_findChild (cs : List (String × Entry)) (n : String) (e : Entry)
    (h : findChild cs n = some e) : setChild cs n e = cs := by
  induction cs with
  | nil => simp [findChild] at h
  | cons hd tl ih =>
    obtain ⟨k, c⟩ := hd
    by_cases hk : k = n
    · subst hk
      simp [findChild] at h
      simp [setChild, h]
    · simp [findChild, hk] at h
      simp [setChild, hk, ih h]

theorem findChild_mem {cs : List (String × Entry)} {n : String} {c : Entry}
    (h : findChild cs n = some c) : (n, c) ∈ cs := by
  induction cs with
  | nil => simp [findChild] at h
  | cons hd tl ih =>
    obtain ⟨k, d⟩ := hd
    by_cases hk : k = n
    · subst hk
      simp [findChild] at h
      simp [h]
    · simp [findChild, hk] at h
      simp [ih h]

theorem findChild_eq_none {cs : List (String × Entry)} {n : String}
    (h : findChild cs n = none) : ∀ c, (n, c) ∉ cs := by
  induction cs with
  | nil => simp
  | cons hd tl ih =>
    obtain ⟨k, d⟩ := hd
    by_cases hk : k = n
    · subst hk
      simp [findChild] at h
    · simp only [findChild, if_neg hk] at h
      intro c hc
      rcases List.mem_cons.mp hc with he | he
      · simp at he
        exact hk he.1.symm
      · exact ih h c he

theorem lookup_nil (e : Entry) : e.lookup [] = some e := by
  cases e <;> rfl

theorem lookup_file (c : String) (t : Nat) (n : String) (p : Path) :
    (Entry.file c t).lookup (n :: p) = none := rfl

theorem lookup_cons_some {cs : List (String × Entry)} {n : String} {c : Entry}
    (h : findChild cs n = some c) (p : Path) :
    (Entry.dir cs).lookup (n :: p) = c.lookup p := by
  simp [Entry.lookup, h]

theorem lookup_cons_none {cs : List (String × Entry)} {n : String}
    (h : findChild cs n = none) (p : Path) :
    (Entry.dir cs).lookup (n :: p) = none := by
  simp [Entry.lookup, h]

theorem lookup_one (cs : List (String × Entry)) (n : String) :
    (Entry.dir cs).lookup [n] = findChild cs n := by
  cases h : findChild cs n with
  | none => simp [lookup_cons_none h]
  | some c => simp [lookup_cons_some h, lookup_nil]

theorem lookup_append (e : Entry) (p q : Path) :
    e.lookup (p ++ q) = (e.lookup p).bind (fun x => x.lookup q) := by
  induction p generalizing e with
  | nil => simp [lookup_nil, Option.bind]
  | cons n p ih =>
    cases e with
    | file c t => simp [lookup_file]
    | dir cs =>
      cases h : findChild cs n with
      | none => simp [lookup_cons_none h]
      | some c => simp [lookup_cons_some h, ih]

/-! ## Characterizations of the filesystem operations at the shapes used -/

theorem makedirs_one_none {cs : List (String × Entry)} {n : String}
    (h : findChild cs n = none) :
    (Entry.dir cs).makedirs [n] = .ok (.dir (setChild cs n (.dir []))) := by
  simp [Entry.makedirs, h]

theorem makedirs_one_dir {cs ds : List (String × Entry)} {n : String}
    (h : findChild cs n = some (.dir ds)) :
    (Entry.dir cs).makedirs [n] = .ok (.dir (setChild cs n (.dir ds))) := by
  simp [Entry.makedirs, h]

theorem makedirs_one_file {cs : List (String × Entry)} {n : String} {c : String} {t : Nat}
    (h : findChild cs n = some (.file c t)) :
    (Entry.dir cs).makedirs [n] = .error .fileExists := by
  simp [Entry.makedirs, h]

theorem writeFileAt2_none {cs : List (String × Entry)} {a b : String}
    (ha : findChild cs a = none) (c : String) (t : Nat) :
    (Entry.dir cs).writeFileAt [a, b] c t = .error .fileNotFound := by
  simp [Entry.writeFileAt, ha]

theorem writeFileAt2_file {cs : List (String × Entry)} {a b : String} {c0 : String} {t0 : Nat}
    (ha : findChild cs a = some (.file c0 t0)) (c : String) (t : Nat) :
    (Entry.dir cs).writeFileAt [a, b] c t = .error .notADirectory := by
  simp [Entry.writeFileAt, ha]

theorem writeFileAt2_dir {cs ds : List (String × Entry)} {a b : String}
    (ha : findChild cs a = some (.dir ds))
    (hb : ∀ es, findChild ds b ≠ some (.dir es)) (c : String) (t : Nat) :
    (Entry.dir cs).writeFileAt [a, b] c t =
      .ok (.dir (setChild cs a (.dir (setChild ds b (.file c t))))) := by
  cases h : findChild ds b with
  | none => simp [Entry.writeFileAt, ha, h]
  | some d =>
    cases d with
    | file c1 t1 => simp [Entry.writeFileAt, ha, h]
    | dir es => exact absurd h (hb es)

theorem writeFileAt2_dirdir {cs ds es : List (String × Entry)} {a b : String}
    (ha : findChild cs a = some (.dir ds))
    (hb : findChild ds b = some (.dir es)) (c : String) (t : Nat) :
    (Entry.dir cs).writeFileAt [a, b] c t = .error .isADirectory := by
  simp [Entry.writeFileAt, ha, hb]

theorem copy2_src_dir {fs : Entry} {src : Path} {x : List (String × Entry)}
    (h : fs.lookup src = some (.dir x)) (dst : Path) :
    fs.copy2 src dst = .error .isADirectory := by
  simp [Entry.copy2, h]

theorem copy2_src_none {fs : Entry} {src : Path}
    (h : fs.lookup src = none) (dst : Path) :
    fs.copy2 src dst = .error .fileNotFound := by
  simp [Entry.copy2, h]

theorem copy2_file_into_dir {fs : Entry} {src dst : Path} {c : String} {t : Nat}
    {ds : List (String × Entry)}
    (hsrc : fs.lookup src = some (.file c t))
    (hdst : fs.lookup dst = some (.dir ds)) :
    fs.copy2 src dst = fs.writeFileAt (dst ++ [src.getLastD ""]) c t := by
  simp [Entry.copy2, hsrc, hdst]

theorem copytree_src_none {fs : Entry} {src : Path}
    (h : fs.lookup src = none) (dst : Path) :
    fs.copytree src dst = .error .fileNotFound := by
  simp [Entry.copytree, h]

theorem copytree_src_file {fs : Entry} {src : Path} {c : String} {t : Nat}
    (h : fs.lookup src = some (.file c t)) (dst : Path) :
    fs.copytree src dst = .error .notADirectory := by
  simp [Entry.copytree, h]

theorem copytree_src_dir {fs : Entry} {src : Path} {cs0 : List (String × Entry)}
    (h : fs.lookup src = some (.dir cs0)) (dst : Path) :
    fs.copytree src dst =
      match copytreeEntry "" (.dir cs0) (fs.lookup dst) with
      | .ok merged => fs.setEntryCreating dst merged
      | .error e => .error e := by
  simp [Entry.copytree, h]

theorem SEC2_none {cs : List (String × Entry)} {a b : String} (m : Entry)
    (ha : findChild cs a = none) :
    (Entry.dir cs).setEntryCreating [a, b] m =
      .ok (.dir (setChild cs a (.dir [(b, m)]))) := by
  simp [Entry.setEntryCreating, ha, setChild]

theorem SEC2_file {cs : List (String × Entry)} {a b : String} {c0 : String} {t0 : Nat} (m : Entry)
    (ha : findChild cs a = some (.file c0 t0)) :
    (Entry.dir cs).setEntryCreating [a, b] m = .error .notADirectory := by
  simp [Entry.setEntryCreating, ha]

theorem SEC2_dir {cs ds : List (String × Entry)} {a b : String} (m : Entry)
    (ha : findChild cs a = some (.dir ds)) :
    (Entry.dir cs).setEntryCreating [a, b] m =
      .ok (.dir (setChild cs a (.dir (setChild ds b m)))) := by
  simp [Entry.setEntryCreating, ha]

theorem SEC3_none {cs : List (String × Entry)} {a b c : String} (m : Entry)
    (ha : findChild cs a = none) :
    (Entry.dir cs).setEntryCreating [a, b, c] m =
      .ok (.dir (setChild cs a (.dir [(b, Entry.dir [(c, m)])]))) := by
  simp [Entry.setEntryCreating, ha, findChild, setChild]

theorem SEC3_file {cs : List (String × Entry)} {a b c : String} {c0 : String} {t0 : Nat} (m : Entry)
    (ha : findChild cs a = some (.file c0 t0)) :
    (Entry.dir cs).setEntryCreating [a, b, c] m = .error .notADirectory := by
  simp [Entry.setEntryCreating, ha]

theorem SEC3_dir_none {cs ds : List (String × Entry)} {a b c : String} (m : Entry)
    (ha : findChild cs a = some (.dir ds))
    (hb : findChild ds b = none) :
    (Entry.dir cs).setEntryCreating [a, b, c] m =
      .ok (.dir (setChild cs a (.dir (setChild ds b (.dir [(c, m)]))))) := by
  simp [Entry.setEntryCreating, ha, hb, findChild, setChild]

theorem SEC3_dir_file {cs ds : List (String × Entry)} {a b c : String}
    {c0 : String} {t0 : Nat} (m : Entry)
    (ha : findChild cs a = some (.dir ds))
    (hb : findChild ds b = some (.file c0 t0)) :
    (Entry.dir cs).setEntryCreating [a, b, c] m = .error .notADirectory := by
  simp [Entry.setEntryCreating, ha, hb]

theorem SEC3_dir_dir {cs ds es : List (String × Entry)} {a b c : String} (m : Entry)
    (ha : findChild cs a = some (.dir ds))
    (hb : findChild ds b = some (.dir es)) :
    (Entry.dir cs).setEntryCreating [a, b, c] m =
      .ok (.dir (setChild cs a (.dir (setChild ds b (.dir (setChild es c m)))))) := by
  simp [Entry.setEntryCreating, ha, hb]

/-! ## Structural induction over the entry tree -/

theorem sizeOf_child_lt {cs : List (String × Entry)} {m : String} {c : Entry}
    (h : (m, c) ∈ cs) : sizeOf c < sizeOf (Entry.dir cs) := by
  have h1 : sizeOf (m, c) < sizeOf cs := List.sizeOf_lt_of_mem h
  have h2 : sizeOf (m, c) = 1 + sizeOf m + sizeOf c := by simp
  have h3 : sizeOf (Entry.dir cs) = 1 + sizeOf cs := by simp
  omega

theorem Entry.strongInduction (P : Entry → Prop)
    (hfile : ∀ c t, P (Entry.file c t))
    (hdir : ∀ cs, (∀ m c, (m, c) ∈ cs → P c) → P (Entry.dir cs)) :
    ∀ e, P e := by
  have key : ∀ (n : Nat) (e : Entry), sizeOf e < n → P e := by
    intro n
    induction n with
    | zero => intro e he; omega
    | succ n ih =>
      intro e he
      match e with
      | .file c t => exact hfile c t
      | .dir cs =>
        refine hdir cs (fun m c hc => ih c ?_)
        have := sizeOf_child_lt hc
        omega
  exact fun e => key (sizeOf e + 1) e (Nat.lt_succ_self _)

/-! ## Well-formedness lemmas -/

theorem wfb_dir_nodup {cs : List (String × Entry)}
    (h : (Entry.dir cs).wfb = true) : (cs.map Prod.fst).Nodup := by
  simp only [Entry.wfb, Bool.and_eq_true, decide_eq_true_eq] at h
  exact h.1

theorem childrenWfb_mem {cs : List (String × Entry)} (h : childrenWfb cs = true)
    {m : String} {c : Entry} (hm : (m, c) ∈ cs) : c.wfb = true := by
  induction cs with
  | nil => simp at hm
  | cons hd tl ih =>
    obtain ⟨k, d⟩ := hd
    simp only [childrenWfb, Bool.and_eq_true] at h
    rcases List.mem_cons.mp hm with he | he
    · simp at he
      obtain ⟨h1, h2⟩ := he
      subst h2
      exact h.1
    · exact ih h.2 he

theorem wfb_dir_mem {cs : List (String × Entry)} (h : (Entry.dir cs).wfb = true)
    {m : String} {c : Entry} (hm : (m, c) ∈ cs) : c.wfb = true := by
  simp only [Entry.wfb, Bool.and_eq_true, decide_eq_true_eq] at h
  exact childrenWfb_mem h.2 hm

theorem wfb_lookup {e : Entry} (h : e.wfb = true) {p : Path} {x : Entry}
    (hl : e.lookup p = some x) : x.wfb = true := by
  induction p generalizing e with
  | nil =>
    rw [lookup_nil] at hl
    injection hl with hl
    exact hl ▸ h
  | cons n p ih =>
    cases e with
    | file c t => simp [lookup_file] at hl
    | dir cs =>
      cases hfc : findChild cs n with
      | none => rw [lookup_cons_none hfc] at hl; cases hl
      | some c =>
        rw [lookup_cons_some hfc] at hl
        exact ih (wfb_dir_mem h (findChild_mem hfc)) hl

/-! ## Lookup through an optional destination entry -/

theorem olookup_some (e : Entry) (p : Path) : olookup (some e) p = e.lookup p := rfl

theorem lookup_append_olookup (fs : Entry) (P p : Path) :
    fs.lookup (P ++ p) = olookup (fs.lookup P) p := by
  rw [lookup_append]
  cases fs.lookup P <;> rfl

theorem olookup_dir_cons (ds : List (String × Entry)) (n : String) (p : Path) :
    olookup (some (Entry.dir ds)) (n :: p) = olookup (findChild ds n) p := by
  cases h : findChild ds n with
  | none => rw [olookup_some, lookup_cons_none h]; rfl
  | some c => rw [olookup_some, lookup_cons_some h]; rfl

theorem lastD_cons (a : String) (p : Path) (n : String) :
    lastD (a :: p) n = lastD p a := rfl

/-! ## What a successful `copytree` merge guarantees -/

theorem findChild_eq_none_of_not_mem {cs : List (String × Entry)} {n : String}
    (h : n ∉ cs.map Prod.fst) : findChild cs n = none := by
  induction cs with
  | nil => rfl
  | cons hd tl ih =>
    obtain ⟨k, c⟩ := hd
    simp only [List.map_cons, List.mem_cons, not_or] at h
    rw [findChild, if_neg (fun he => h.1 he.symm)]
    exact ih h.2

theorem copytreeChildren_ok :
    ∀ (cs ds : List (String × Entry)) (r : Entry),
      copytreeChildren cs ds = .ok r →
      (cs.map Prod.fst).Nodup →
      ∃ rs, r = .dir rs ∧
        (∀ n c, (n, c) ∈ cs →
           ∃ d, copytreeEntry n c (findChild ds n) = .ok d ∧ findChild rs n = some d) ∧
        (∀ m, findChild cs m = none → findChild rs m = findChild ds m) := by
  intro cs
  induction cs with
  | nil =>
    intro ds r h _
    simp only [copytreeChildren] at h
    injection h with h
    refine ⟨ds, h.symm, by simp, fun m _ => rfl⟩
  | cons hd tl ih =>
    intro ds r h hnd
    obtain ⟨n, c⟩ := hd
    simp only [copytreeChildren] at h
    cases hme : copytreeEntry n c (findChild ds n) with
    | error e => rw [hme] at h; cases h
    | ok c2 =>
      rw [hme] at h
      have hnd2 : (tl.map Prod.fst).Nodup := (List.nodup_cons.mp (by simpa using hnd)).2
      have hnotin : n ∉ tl.map Prod.fst := (List.nodup_cons.mp (by simpa using hnd)).1
      obtain ⟨rs, hr, hmem, hun⟩ := ih (setChild ds n c2) r h hnd2
      refine ⟨rs, hr, ?_, ?_⟩
      · intro n' c' hm
        rcases List.mem_cons.mp hm with he | he
        · simp at he
          obtain ⟨h1, h2⟩ := he
          subst h1
          subst h2
          refine ⟨c2, hme, ?_⟩
          rw [hun n' (findChild_eq_none_of_not_mem hnotin)]
          exact findChild_setChild_self _ _ _
        · have hn' : n' ∈ tl.map Prod.fst := List.mem_map_of_mem _ he
          have hne : n' ≠ n := fun heq => hnotin (heq ▸ hn')
          obtain ⟨d, hd1, hd2⟩ := hmem n' c' he
          rw [findChild_setChild_ne _ _ _ _ hne] at hd1
          exact ⟨d, hd1, hd2⟩
      · intro m hm
        have hmn : ¬ (n = m) := by
          intro he
          rw [findChild, if_pos he] at hm
          cases hm
        have htl : findChild tl m = none := by
          rw [findChild, if_neg hmn] at hm
          exact hm
        rw [hun m htl, findChild_setChild_ne _ _ _ _ (fun he => hmn he.symm)]

theorem copytreeEntry_file_none (n : String) (c : String) (t : Nat) :
    copytreeEntry n (Entry.file c t) none = .ok (Entry.file c t) := rfl

theorem copytreeEntry_file_file (n : String) (c : String) (t : Nat)
    (c2 : String) (t2 : Nat) :
    copytreeEntry n (Entry.file c t) (some (Entry.file c2 t2))
      = .ok (Entry.file c t) := rfl

theorem copytreeEntry_file_dir_dir {ds : List (String × Entry)} {n : String}
    {es : List (String × Entry)} (h : findChild ds n = some (Entry.dir es))
    (c : String) (t : Nat) :
    copytreeEntry n (Entry.file c t) (some (Entry.dir ds)) = .error .isADirectory := by
  simp [copytreeEntry, h]

theorem copytreeEntry_file_dir_ok {ds : List (String × Entry)} {n : String}
    (h : ∀ es, findChild ds n ≠ some (Entry.dir es)) (c : String) (t : Nat) :
    copytreeEntry n (Entry.file c t) (some (Entry.dir ds))
      = .ok (Entry.dir (setChild ds n (Entry.file c t))) := by
  cases hfd : findChild ds n with
  | none => simp [copytreeEntry, hfd]
  | some e =>
    cases e with
    | file c2 t2 => simp [copytreeEntry, hfd]
    | dir es => exact absurd hfd (h es)

theorem copytreeEntry_dir_none (n : String) (cs : List (String × Entry)) :
    copytreeEntry n (Entry.dir cs) none = copytreeChildren cs [] := rfl

theorem copytreeEntry_dir_file (n : String) (cs : List (String × Entry))
    (c2 : String) (t2 : Nat) :
    copytreeEntry n (Entry.dir cs) (some (Entry.file c2 t2)) = .error .fileExists := rfl

theorem copytreeEntry_dir_dir (n : String) (cs ds : List (String × Entry)) :
    copytreeEntry n (Entry.dir cs) (some (Entry.dir ds)) = copytreeChildren cs ds := rfl

theorem copytreeEntry_mirror : ∀ (src : Entry), src.wfb = true →
    ∀ (n : String) (d : Option Entry) (m : Entry), copytreeEntry n src d = .ok m →
    ∀ (p : Path) (c : String) (t : Nat), src.lookup p = some (.file c t) →
      (∀ D, olookup d p ≠ some (Entry.dir D)) →
      m.lookup p = some (.file c t) := by
  intro src
  induction src using Entry.strongInduction with
  | hfile c0 t0 =>
    intro _ n d m h p c t hl hnd
    cases p with
    | cons a q => rw [lookup_file] at hl; cases hl
    | nil =>
      rw [lookup_nil] at hl
      injection hl with hl
      have hm : m = Entry.file c0 t0 := by
        cases d with
        | none =>
          rw [copytreeEntry_file_none] at h
          injection h with h
          exact h.symm
        | some e =>
          cases e with
          | file c2 t2 =>
            rw [copytreeEntry_file_file] at h
            injection h with h
            exact h.symm
          | dir ds => exact absurd rfl (hnd ds)
      subst hm
      rw [lookup_nil, hl]
  | hdir cs ih =>
    intro hwf n d m h p c t hl hnd
    have hnodup : (cs.map Prod.fst).Nodup := wfb_dir_nodup hwf
    have hcw : childrenWfb cs = true := by
      simp only [Entry.wfb, Bool.and_eq_true, decide_eq_true_eq] at hwf
      exact hwf.2
    cases p with
    | nil => rw [lookup_nil] at hl; cases hl
    | cons n0 p0 =>
      cases hfc : findChild cs n0 with
      | none => rw [lookup_cons_none hfc] at hl; cases hl
      | some c0 =>
        rw [lookup_cons_some hfc] at hl
        have key : ∀ ds0, copytreeChildren cs ds0 = .ok m →
            (∀ D, olookup (findChild ds0 n0) p0 ≠ some (Entry.dir D)) →
            m.lookup (n0 :: p0) = some (.file c t) := by
          intro ds0 hcc hnd0
          obtain ⟨rs, hr, hmem, -⟩ := copytreeChildren_ok cs ds0 m hcc hnodup
          subst hr
          obtain ⟨d2, hd1, hd2⟩ := hmem n0 c0 (findChild_mem hfc)
          rw [lookup_cons_some hd2]
          exact ih n0 c0 (findChild_mem hfc) (childrenWfb_mem hcw (findChild_mem hfc))
            n0 (findChild ds0 n0) d2 hd1 p0 c t hl hnd0
        cases d with
        | none =>
          rw [copytreeEntry_dir_none] at h
          refine key [] h ?_
          intro D hD
          exact Option.noConfusion hD
        | some e =>
          cases e with
          | file c2 t2 => rw [copytreeEntry_dir_file] at h; cases h
          | dir ds =>
            rw [copytreeEntry_dir_dir] at h
            refine key ds h ?_
            intro D hD
            refine hnd D ?_
            rw [olookup_dir_cons]
            exact hD

theorem copytreeEntry_nests : ∀ (src : Entry), src.wfb = true →
    ∀ (n : String) (d : Option Entry) (m : Entry), copytreeEntry n src d = .ok m →
    ∀ (p : Path) (c : String) (t : Nat) (D : List (String × Entry)),
      src.lookup p = some (.file c t) →
      olookup d p = some (Entry.dir D) →
      m.lookup (p ++ [lastD p n]) = some (.file c t) := by
  intro src
  induction src using Entry.strongInduction with
  | hfile c0 t0 =>
    intro _ n d m h p c t D hl hD
    cases p with
    | cons a q => rw [lookup_file] at hl; cases hl
    | nil =>
      rw [lookup_nil] at hl
      injection hl with hl
      cases d with
      | none => exact Option.noConfusion hD
      | some e =>
        cases e with
        | file c2 t2 =>
          rw [olookup_some, lookup_nil] at hD
          cases hD
        | dir ds =>
          cases hfd : findChild ds n with
          | some e2 =>
            cases e2 with
            | dir es =>
              rw [copytreeEntry_file_dir_dir hfd] at h
              cases h
            | file c3 t3 =>
              rw [copytreeEntry_file_dir_ok (fun es he => by rw [hfd] at he; cases he) c0 t0] at h
              injection h with h
              subst h
              rw [show (([] : Path) ++ [lastD ([] : Path) n]) = [n] from rfl, lookup_one,
                  findChild_setChild_self, hl]
          | none =>
            rw [copytreeEntry_file_dir_ok (fun es he => by rw [hfd] at he; cases he) c0 t0] at h
            injection h with h
            subst h
            rw [show (([] : Path) ++ [lastD ([] : Path) n]) = [n] from rfl, lookup_one,
                findChild_setChild_self, hl]
  | hdir cs ih =>
    intro hwf n d m h p c t D hl hD
    have hnodup : (cs.map Prod.fst).Nodup := wfb_dir_nodup hwf
    have hcw : childrenWfb cs = true := by
      simp only [Entry.wfb, Bool.and_eq_true, decide_eq_true_eq] at hwf
      exact hwf.2
    cases p with
    | nil => rw [lookup_nil] at hl; cases hl
    | cons n0 p0 =>
      cases hfc : findChild cs n0 with
      | none => rw [lookup_cons_none hfc] at hl; cases hl
      | some c0 =>
        rw [lookup_cons_some hfc] at hl
        cases d with
        | none => exact Option.noConfusion hD
        | some e =>
          cases e with
          | file c2 t2 =>
            rw [olookup_some, lookup_file] at hD
            cases hD
          | dir ds =>
            rw [copytreeEntry_dir_dir] at h
            obtain ⟨rs, hr, hmem, -⟩ := copytreeChildren_ok cs ds m h hnodup
            subst hr
            obtain ⟨d2, hd1, hd2⟩ := hmem n0 c0 (findChild_mem hfc)
            rw [olookup_dir_cons] at hD
            have hrec := ih n0 c0 (findChild_mem hfc)
              (childrenWfb_mem hcw (findChild_mem hfc))
              n0 (findChild ds n0) d2 hd1 p0 c t D hl hD
            rw [show ((n0 :: p0) ++ [lastD (n0 :: p0) n])
                  = n0 :: (p0 ++ [lastD p0 n0]) from rfl,
                lookup_cons_some hd2]
            exact hrec

theorem copytreeEntry_preserves : ∀ (src : Entry), src.wfb = true →
    ∀ (n : String) (dst m : Entry), copytreeEntry n src (some dst) = .ok m →
    ∀ (p : Path) (c : String) (t : Nat),
      dst.lookup p = some (.file c t) → src.lookup p = none →
      (∀ q1 q2 c2 t2, p = q1 ++ q2 → src.lookup q1 ≠ some (Entry.file c2 t2)) →
      m.lookup p = some (.file c t) := by
  intro src
  induction src using Entry.strongInduction with
  | hfile c0 t0 =>
    intro _ n dst m h p c t hd hs hpre
    exact absurd (lookup_nil _) (hpre [] p c0 t0 rfl)
  | hdir cs ih =>
    intro hwf n dst m h p c t hd hs hpre
    have hnodup : (cs.map Prod.fst).Nodup := wfb_dir_nodup hwf
    have hcw : childrenWfb cs = true := by
      simp only [Entry.wfb, Bool.and_eq_true, decide_eq_true_eq] at hwf
      exact hwf.2
    cases dst with
    | file c2 t2 =>
      cases p with
      | nil => rw [lookup_nil] at hs; cases hs
      | cons a q => rw [lookup_file] at hd; cases hd
    | dir ds =>
      rw [copytreeEntry_dir_dir] at h
      obtain ⟨rs, hr, hmem, hun⟩ := copytreeChildren_ok cs ds m h hnodup
      subst hr
      cases p with
      | nil => rw [lookup_nil] at hd; cases hd
      | cons n0 p0 =>
        cases hfd : findChild ds n0 with
        | none => rw [lookup_cons_none hfd] at hd; cases hd
        | some d0 =>
          rw [lookup_cons_some hfd] at hd
          cases hfc : findChild cs n0 with
          | none =>
            have hrs : findChild rs n0 = some d0 := (hun n0 hfc).trans hfd
            rw [lookup_cons_some hrs]
            exact hd
          | some c0 =>
            rw [lookup_cons_some hfc] at hs
            obtain ⟨d2, hd1, hd2⟩ := hmem n0 c0 (findChild_mem hfc)
            rw [hfd] at hd1
            rw [lookup_cons_some hd2]
            cases c0 with
            | file c3 t3 =>
              refine absurd ?_ (hpre [n0] p0 c3 t3 rfl)
              rw [lookup_one, hfc]
            | dir cs0 =>
              refine ih n0 (.dir cs0) (findChild_mem hfc)
                (childrenWfb_mem hcw (findChild_mem hfc))
                n0 d0 d2 hd1 p0 c t hd hs ?_
              intro q1 q2 c2 t2 hq
              have hp2 := hpre (n0 :: q1) q2 c2 t2 (by rw [hq]; rfl)
              rw [lookup_cons_some hfc] at hp2
              exact hp2

theorem copytreeEntry_stable : ∀ (src : Entry), src.wfb = true →
    ∀ (n : String) (d : Option Entry) (m : Entry),
      copytreeEntry n src d = .ok m → copytreeEntry n src (some m) = .ok m := by
  intro src
  induction src using Entry.strongInduction with
  | hfile c0 t0 =>
    intro _ n d m h
    cases d with
    | none =>
      rw [copytreeEntry_file_none] at h
      injection h with h
      subst h
      rfl
    | some e =>
      cases e with
      | file c2 t2 =>
        rw [copytreeEntry_file_file] at h
        injection h with h
        subst h
        rfl
      | dir ds =>
        cases hfd : findChild ds n with
        | some e2 =>
          cases e2 with
          | dir es =>
            rw [copytreeEntry_file_dir_dir hfd] at h
            cases h
          | file c3 t3 =>
            rw [copytreeEntry_file_dir_ok (fun es he => by rw [hfd] at he; cases he) c0 t0] at h
            injection h with h
            subst h
            rw [copytreeEntry_file_dir_ok (fun es he => by
                rw [findChild_setChild_self] at he; cases he) c0 t0]
            rw [setChild_eq_of_findChild _ _ _ (findChild_setChild_self _ _ _)]
        | none =>
          rw [copytreeEntry_file_dir_ok (fun es he => by rw [hfd] at he; cases he) c0 t0] at h
          injection h with h
          subst h
          rw [copytreeEntry_file_dir_ok (fun es he => by
              rw [findChild_setChild_self] at he; cases he) c0 t0]
          rw [setChild_eq_of_findChild _ _ _ (findChild_setChild_self _ _ _)]
  | hdir cs ih =>
    intro hwf n d m h
    have hnodup : (cs.map Prod.fst).Nodup := wfb_dir_nodup hwf
    have hcw : childrenWfb cs = true := by
      simp only [Entry.wfb, Bool.and_eq_true, decide_eq_true_eq] at hwf
      exact hwf.2
    have aux : ∀ (l : List (String × Entry)),
        (∀ k c, (k, c) ∈ l → (k, c) ∈ cs) →
        (l.map Prod.fst).Nodup →
        ∀ ds0 rs, copytreeChildren l ds0 = .ok (.dir rs) →
          copytreeChildren l rs = .ok (.dir rs) := by
      intro l
      induction l with
      | nil =>
        intro _ _ ds0 rs _
        rfl
      | cons hd tl ihl =>
        obtain ⟨n0, c0⟩ := hd
        intro hsub hnd ds0 rs hcc
        simp only [copytreeChildren] at hcc
        cases hme : copytreeEntry n0 c0 (findChild ds0 n0) with
        | error e => rw [hme] at hcc; cases hcc
        | ok e0 =>
          rw [hme] at hcc
          have hnd2 : (tl.map Prod.fst).Nodup := (List.nodup_cons.mp (by simpa using hnd)).2
          have hnotin : n0 ∉ tl.map Prod.fst := (List.nodup_cons.mp (by simpa using hnd)).1
          obtain ⟨rs2, hr2, -, hun2⟩ :=
            copytreeChildren_ok tl (setChild ds0 n0 e0) (.dir rs) hcc hnd2
          injection hr2 with hr2
          subst hr2
          have hfrs : findChild rs n0 = some e0 := by
            rw [hun2 n0 (findChild_eq_none_of_not_mem hnotin), findChild_setChild_self]
          have hstab : copytreeEntry n0 c0 (some e0) = .ok e0 :=
            ih n0 c0 (hsub n0 c0 (List.mem_cons_self _ _))
              (childrenWfb_mem hcw (hsub n0 c0 (List.mem_cons_self _ _)))
              n0 (findChild ds0 n0) e0 hme
          simp only [copytreeChildren, hfrs, hstab]
          rw [setChild_eq_of_findChild _ _ _ hfrs]
          exact ihl (fun k c hm => hsub k c (List.mem_cons_of_mem _ hm)) hnd2
            (setChild ds0 n0 e0) rs hcc
    cases d with
    | none =>
      rw [copytreeEntry_dir_none] at h
      obtain ⟨rs, hr, -, -⟩ := copytreeChildren_ok cs [] m h hnodup
      subst hr
      rw [copytreeEntry_dir_dir]
      exact aux cs (fun _ _ hm => hm) hnodup [] rs h
    | some e =>
      cases e with
      | file c2 t2 => rw [copytreeEntry_dir_file] at h; cases h
      | dir ds =>
        rw [copytreeEntry_dir_dir] at h
        obtain ⟨rs, hr, -, -⟩ := copytreeChildren_ok cs ds m h hnodup
        subst hr
        rw [copytreeEntry_dir_dir]
        exact aux cs (fun _ _ hm => hm) hnodup ds rs h

/-! ## Frame helpers for single writes under the output directory -/

theorem lookup_cons_congr {cs1 cs2 : List (String × Entry)} {n : String}
    (h : findChild cs1 n = findChild cs2 n) (q : Path) :
    (Entry.dir cs1).lookup (n :: q) = (Entry.dir cs2).lookup (n :: q) := by
  cases hf : findChild cs2 n with
  | none => rw [lookup_cons_none (h.trans hf), lookup_cons_none hf]
  | some c => rw [lookup_cons_some (h.trans hf), lookup_cons_some hf]

theorem writeFileAt2_ok {cs : List (String × Entry)} {a b : String} {c : String} {t : Nat}
    {fs2 : Entry}
    (h : (Entry.dir cs).writeFileAt [a, b] c t = .ok fs2) :
    ∃ ds, findChild cs a = some (.dir ds) ∧
      fs2 = .dir (setChild cs a (.dir (setChild ds b (.file c t)))) := by
  cases ha : findChild cs a with
  | none => rw [writeFileAt2_none ha] at h; cases h
  | some e =>
    cases e with
    | file c0 t0 => rw [writeFileAt2_file ha] at h; cases h
    | dir ds =>
      refine ⟨ds, rfl, ?_⟩
      cases hb : findChild ds b with
      | none =>
        rw [writeFileAt2_dir ha (by intro es he; rw [hb] at he; cases he) c t] at h
        injection h with h
        exact h.symm
      | some d =>
        cases d with
        | file c1 t1 =>
          rw [writeFileAt2_dir ha (by intro es he; rw [hb] at he; simp at he) c t] at h
          injection h with h
          exact h.symm
        | dir es => rw [writeFileAt2_dirdir ha hb c t] at h; cases h

theorem frame1 {cs : List (String × Entry)} (X : Entry) {m : String}
    (hm : m ≠ output_dir) (q : Path) :
    (Entry.dir (setChild cs output_dir X)).lookup (m :: q) = (Entry.dir cs).lookup (m :: q) :=
  lookup_cons_congr (findChild_setChild_ne _ _ _ _ hm) q

theorem frame2 {cs ds : List (String × Entry)} {Y : Entry} {b : String}
    (hout : findChild cs output_dir = some (Entry.dir ds)) (b' : String) (hne : b' ≠ b)
    (q : Path) :
    (Entry.dir (setChild cs output_dir (Entry.dir (setChild ds b Y)))).lookup
        (output_dir :: b' :: q)
      = (Entry.dir cs).lookup (output_dir :: b' :: q) := by
  rw [lookup_cons_some (findChild_setChild_self _ _ _), lookup_cons_some hout]
  exact lookup_cons_congr (findChild_setChild_ne _ _ _ _ hne) q

theorem lookup_set2 {cs ds : List (String × Entry)} (Y : Entry) (b : String) (q : Path) :
    (Entry.dir (setChild cs output_dir (Entry.dir (setChild ds b Y)))).lookup
        (output_dir :: b :: q)
      = Y.lookup q := by
  rw [lookup_cons_some (findChild_setChild_self _ _ _),
      lookup_cons_some (findChild_setChild_self _ _ _)]

/-! ## Behaviour of the essential-file loop -/

theorem copyFilesLoop_ok :
    ∀ (L : List String) (s s' : S),
      L.Nodup →
      (∀ f ∈ L, splitPath f = [f]) →
      outShape s →
      copyFilesLoop L s = .ok s' →
      outShape s' ∧
      (∀ m q, m ≠ output_dir → s'.fs.lookup (m :: q) = s.fs.lookup (m :: q)) ∧
      (∀ b q, b ∉ L → s'.fs.lookup (output_dir :: b :: q) = s.fs.lookup (output_dir :: b :: q)) ∧
      (∀ f ∈ L, ∀ c t, s.fs.lookup [backup_dir, f] = some (.file c t) →
          s'.fs.lookup [output_dir, f] = some (.file c t) ∧ OutLine.fileCopied f ∈ s'.out) ∧
      (∀ f ∈ L, ∀ x, s.fs.lookup [backup_dir, f] ≠ some (.dir x)) ∧
      (∀ f ∈ L, s.fs.lookup [backup_dir, f] = none →
          ∀ q, s'.fs.lookup (output_dir :: f :: q) = s.fs.lookup (output_dir :: f :: q)) ∧
      (∃ add, s'.out = s.out ++ add ∧
          ∀ o ∈ add, ∃ f, f ∈ L ∧ o = OutLine.fileCopied f ∧
            s.fs.lookup [backup_dir, f] ≠ none) ∧
      s'.log = s.log := by
  intro L
  induction L with
  | nil =>
    intro s s' _ _ hsh h
    simp only [copyFilesLoop] at h
    injection h with h
    subst h
    exact ⟨hsh, fun _ _ _ => rfl, fun _ _ _ => rfl, by simp, by simp, by simp,
      ⟨[], by simp, by simp⟩, rfl⟩
  | cons f rest ih =>
    intro s s' hnd hsplit hsh h
    obtain ⟨cs, ds, hfs, hout⟩ := hsh
    have hspf : splitPath f = [f] := hsplit f (List.mem_cons_self _ _)
    simp only [copyFilesLoop, hspf] at h
    cases hsrc : s.fs.lookup [backup_dir, f] with
    | none =>
      rw [hsrc] at h
      simp only [Option.isSome_none, Bool.false_eq_true, if_false] at h
      obtain ⟨ih1, ih2, ih3, ih4, ih5, ih6, ⟨add, ihadd1, ihadd2⟩, ih7⟩ :=
        ih s s' (List.nodup_cons.mp hnd).2 (fun g hg => hsplit g (List.mem_cons_of_mem _ hg)) ⟨cs, ds, hfs, hout⟩ h
      refine ⟨ih1, ih2, fun b q hb => ih3 b q (fun hbr => hb (List.mem_cons_of_mem _ hbr)),
        ?_, ?_, ?_, ⟨add, ihadd1, ?_⟩, ih7⟩
      · intro g hg c t hgl
        rcases List.mem_cons.mp hg with he | he
        · subst he
          rw [hsrc] at hgl
          cases hgl
        · exact ih4 g he c t hgl
      · intro g hg x hgl
        rcases List.mem_cons.mp hg with he | he
        · subst he
          rw [hsrc] at hgl
          cases hgl
        · exact ih5 g he x hgl
      · intro g hg hgl q
        rcases List.mem_cons.mp hg with he | he
        · subst he
          exact ih3 g q (List.nodup_cons.mp hnd).1
        · exact ih6 g he hgl q
      · intro o ho
        obtain ⟨g, hg, ho1, ho2⟩ := ihadd2 o ho
        exact ⟨g, List.mem_cons_of_mem _ hg, ho1, ho2⟩
    | some e =>
      rw [hsrc] at h
      simp only [Option.isSome_some, if_true] at h
      split at h
      next fs2 hcopy =>
        cases e with
        | dir x =>
          rw [copy2_src_dir hsrc [output_dir]] at hcopy
          cases hcopy
        | file c0 t0 =>
          have hdst : s.fs.lookup [output_dir] = some (.dir ds) := by
            rw [hfs, lookup_one]
            exact hout
          rw [copy2_file_into_dir hsrc hdst] at hcopy
          have hw2 : (Entry.dir cs).writeFileAt [output_dir, f] c0 t0 = .ok fs2 := by
            rw [← hfs]
            exact hcopy
          obtain ⟨ds0, hds0, hshape⟩ := writeFileAt2_ok hw2
          rw [hout] at hds0
          injection hds0 with hds0
          injection hds0 with hds0
          subst hds0
          subst hshape
          have hnd2 := (List.nodup_cons.mp hnd).2
          have hnotin : f ∉ rest := (List.nodup_cons.mp hnd).1
          obtain ⟨ih1, ih2, ih3, ih4, ih5, ih6, ⟨add, ihadd1, ihadd2⟩, ih7⟩ :=
            ih _ s' hnd2 (fun g hg => hsplit g (List.mem_cons_of_mem _ hg))
              ⟨_, _, rfl, findChild_setChild_self _ _ _⟩ h
          dsimp only at ih1 ih2 ih3 ih4 ih5 ih6 ihadd1 ihadd2 ih7
          have hf1 : ∀ m (q : Path), m ≠ output_dir →
              (Entry.dir (setChild cs output_dir
                (Entry.dir (setChild ds f (Entry.file c0 t0))))).lookup (m :: q)
                = s.fs.lookup (m :: q) := by
            intro m q hm
            rw [hfs]
            exact frame1 _ hm q
          have hf2 : ∀ b (q : Path), b ≠ f →
              (Entry.dir (setChild cs output_dir
                (Entry.dir (setChild ds f (Entry.file c0 t0))))).lookup
                  (output_dir :: b :: q)
                = s.fs.lookup (output_dir :: b :: q) := by
            intro b q hb
            rw [hfs]
            exact frame2 hout b hb q
          refine ⟨ih1, ?_, ?_, ?_, ?_, ?_, ?_, ?_⟩
          · intro m q hm
            rw [ih2 m q hm]
            exact hf1 m q hm
          · intro b q hb
            have hbf : b ≠ f := fun he => hb (he ▸ List.mem_cons_self _ _)
            rw [ih3 b q (fun hbr => hb (List.mem_cons_of_mem _ hbr))]
            exact hf2 b q hbf
          · intro g hg c t hgl
            rcases List.mem_cons.mp hg with he | he
            · subst he
              rw [hsrc] at hgl
              injection hgl with hgl
              injection hgl with hc ht
              subst hc
              subst ht
              constructor
              · rw [ih3 g [] hnotin]
                rw [lookup_set2]
                exact lookup_nil _
              · rw [ihadd1]
                exact List.mem_append_left _ (by simp)
            · have hgl1 := hgl
              rw [← hf1 backup_dir [g] (by decide)] at hgl1
              exact ih4 g he c t hgl1
          · intro g hg x hgl
            rcases List.mem_cons.mp hg with he | he
            · subst he
              rw [hsrc] at hgl
              simp at hgl
            · refine ih5 g he x ?_
              rw [hf1 backup_dir [g] (by decide)]
              exact hgl
          · intro g hg hgl q
            rcases List.mem_cons.mp hg with he | he
            · subst he
              rw [hsrc] at hgl
              cases hgl
            · have hgf : g ≠ f := fun he2 => hnotin (he2 ▸ he)
              have hgl1 : (Entry.dir (setChild cs output_dir
                  (Entry.dir (setChild ds f (Entry.file c0 t0))))).lookup [backup_dir, g]
                    = none := by
                rw [hf1 backup_dir [g] (by decide)]
                exact hgl
              rw [ih6 g he hgl1 q]
              exact hf2 g q hgf
          · refine ⟨OutLine.fileCopied f :: add, ?_, ?_⟩
            · rw [ihadd1]
              simp
            · intro o ho
              rcases List.mem_cons.mp ho with he | he
              · exact ⟨f, List.mem_cons_self _ _, he, by rw [hsrc]; simp⟩
              · obtain ⟨g, hg, ho1, ho2⟩ := ihadd2 o he
                refine ⟨g, List.mem_cons_of_mem _ hg, ho1, ?_⟩
                rw [hf1 backup_dir [g] (by decide)] at ho2
                exact ho2
          · exact ih7
      next e2 hcopy => cases h

/-! ## Behaviour of the directory loop -/

theorem copyDirsLoop_ok :
    ∀ (L : List String) (s s' : S),
      (L.map dstHead).Nodup →
      (∀ d ∈ L, (∃ b, splitPath d = [b]) ∨ (∃ b c, splitPath d = [b, c])) →
      outShape s →
      copyDirsLoop L s = .ok s' →
      outShape s' ∧
      (∀ m q, m ≠ output_dir → s'.fs.lookup (m :: q) = s.fs.lookup (m :: q)) ∧
      (∀ b q, b ∉ L.map dstHead →
          s'.fs.lookup (output_dir :: b :: q) = s.fs.lookup (output_dir :: b :: q)) ∧
      (∀ d ∈ L, ∀ cs0, s.fs.lookup (backup_dir :: splitPath d) = some (.dir cs0) →
          ∃ mtree, copytreeEntry "" (.dir cs0) (s.fs.lookup (output_dir :: splitPath d)) = .ok mtree ∧
            s'.fs.lookup (output_dir :: splitPath d) = some mtree ∧
            OutLine.dirCopied d ∈ s'.out) ∧
      (∀ d ∈ L, ∀ c t, s.fs.lookup (backup_dir :: splitPath d) ≠ some (.file c t)) ∧
      (∀ d ∈ L, s.fs.lookup (backup_dir :: splitPath d) = none →
          ∀ q, s'.fs.lookup (output_dir :: splitPath d ++ q)
                 = s.fs.lookup (output_dir :: splitPath d ++ q)) ∧
      (∃ add, s'.out = s.out ++ add ∧
          ∀ o ∈ add, ∃ d, d ∈ L ∧ o = OutLine.dirCopied d ∧
            s.fs.lookup (backup_dir :: splitPath d) ≠ none) ∧
      s'.log = s.log := by
  intro L
  induction L with
  | nil =>
    intro s s' _ _ hsh h
    simp only [copyDirsLoop] at h
    injection h with h
    subst h
    exact ⟨hsh, fun _ _ _ => rfl, fun _ _ _ => rfl, by simp, by simp, by simp,
      ⟨[], by simp, by simp⟩, rfl⟩
  | cons d rest ih =>
    intro s s' hheads hshapes hsh h
    obtain ⟨cs, ds, hfs, hout⟩ := hsh
    have hheads2 : (rest.map dstHead).Nodup := by
      simp only [List.map_cons] at hheads
      exact (List.nodup_cons.mp hheads).2
    have hdnotin : dstHead d ∉ rest.map dstHead := by
      simp only [List.map_cons] at hheads
      exact (List.nodup_cons.mp hheads).1
    have hshapes2 : ∀ d2 ∈ rest, (∃ b, splitPath d2 = [b]) ∨ (∃ b c, splitPath d2 = [b, c]) :=
      fun d2 hd2 => hshapes d2 (List.mem_cons_of_mem _ hd2)
    obtain ⟨b0, btail0, hsp, hbt⟩ :
        ∃ b0 btail0, splitPath d = b0 :: btail0 ∧
          (btail0 = ([] : Path) ∨ ∃ c, btail0 = [c]) := by
      rcases hshapes d (List.mem_cons_self _ _) with ⟨b, hb⟩ | ⟨b, c, hb⟩
      · exact ⟨b, [], hb, Or.inl rfl⟩
      · exact ⟨b, [c], hb, Or.inr ⟨c, rfl⟩⟩
    have hbhead : dstHead d = b0 := by simp [dstHead, hsp]
    simp only [copyDirsLoop] at h
    cases hsrc : s.fs.lookup (backup_dir :: splitPath d) with
    | none =>
      rw [hsrc] at h
      simp only [Option.isSome_none, Bool.false_eq_true, if_false] at h
      obtain ⟨ih1, ih2, ih3, ih4, ih5, ih6, ⟨add, ihadd1, ihadd2⟩, ih8⟩ :=
        ih s s' hheads2 hshapes2 ⟨cs, ds, hfs, hout⟩ h
      refine ⟨ih1, ih2, ?_, ?_, ?_, ?_, ⟨add, ihadd1, ?_⟩, ih8⟩
      · intro b q hb
        refine ih3 b q (fun hbr => hb ?_)
        simp only [List.map_cons, List.mem_cons]
        exact Or.inr hbr
      · intro d2 hd2 cs0 hgl
        rcases List.mem_cons.mp hd2 with he | he
        · subst he
          rw [hsrc] at hgl
          cases hgl
        · exact ih4 d2 he cs0 hgl
      · intro d2 hd2 c t hgl
        rcases List.mem_cons.mp hd2 with he | he
        · subst he
          rw [hsrc] at hgl
          cases hgl
        · exact ih5 d2 he c t hgl
      · intro d2 hd2 hgl q
        rcases List.mem_cons.mp hd2 with he | he
        · subst he
          rw [hsp, List.cons_append]
          rw [hbhead] at hdnotin
          exact ih3 b0 (btail0 ++ q) hdnotin
        · exact ih6 d2 he hgl q
      · intro o ho
        obtain ⟨d2, hd2, ho1, ho2⟩ := ihadd2 o ho
        exact ⟨d2, List.mem_cons_of_mem _ hd2, ho1, ho2⟩
    | some e =>
      rw [hsrc] at h
      simp only [Option.isSome_some, if_true] at h
      split at h
      next fs2 hcopy =>
        cases e with
        | file c0 t0 =>
          rw [copytree_src_file hsrc] at hcopy
          cases hcopy
        | dir cs0 =>
          rw [copytree_src_dir hsrc] at hcopy
          split at hcopy
          next mtree hmerge =>
            rw [hsp] at hcopy
            have hkey : ∃ Z, fs2 = .dir (setChild cs output_dir
                  (.dir (setChild ds b0 Z))) ∧ Z.lookup btail0 = some mtree := by
              rcases hbt with hbe | ⟨c, hbe⟩
              · subst hbe
                rw [hfs, SEC2_dir mtree hout] at hcopy
                injection hcopy with hcopy
                exact ⟨mtree, hcopy.symm, lookup_nil _⟩
              · subst hbe
                rw [hfs] at hcopy
                cases hfb : findChild ds b0 with
                | none =>
                  rw [SEC3_dir_none mtree hout hfb] at hcopy
                  injection hcopy with hcopy
                  refine ⟨Entry.dir [(c, mtree)], hcopy.symm, ?_⟩
                  rw [lookup_one]
                  simp [findChild]
                | some eb =>
                  cases eb with
                  | file cf tf =>
                    rw [SEC3_dir_file mtree hout hfb] at hcopy
                    cases hcopy
                  | dir es =>
                    rw [SEC3_dir_dir mtree hout hfb] at hcopy
                    injection hcopy with hcopy
                    refine ⟨Entry.dir (setChild es c mtree), hcopy.symm, ?_⟩
                    rw [lookup_one]
                    exact findChild_setChild_self _ _ _
            obtain ⟨Z, hfs2, hZ⟩ := hkey
            obtain ⟨ih1, ih2, ih3, ih4, ih5, ih6, ⟨add, ihadd1, ihadd2⟩, ih8⟩ :=
              ih _ s' hheads2 hshapes2 ⟨_, _, hfs2, findChild_setChild_self _ _ _⟩ h
            dsimp only at ih1 ih2 ih3 ih4 ih5 ih6 ihadd1 ihadd2 ih8
            have hf1 : ∀ m (q : Path), m ≠ output_dir →
                fs2.lookup (m :: q) = s.fs.lookup (m :: q) := by
              intro m q hm
              rw [hfs2, hfs]
              exact frame1 _ hm q
            have hf2 : ∀ b' (q : Path), b' ≠ b0 →
                fs2.lookup (output_dir :: b' :: q) = s.fs.lookup (output_dir :: b' :: q) := by
              intro b' q hb'
              rw [hfs2, hfs]
              exact frame2 hout b' hb' q
            have hpos : fs2.lookup (output_dir :: b0 :: btail0) = some mtree := by
              rw [hfs2, lookup_set2]
              exact hZ
            have hb0notin : b0 ∉ rest.map dstHead := hbhead ▸ hdnotin
            refine ⟨ih1, ?_, ?_, ?_, ?_, ?_, ?_, ih8⟩
            · intro m q hm
              rw [ih2 m q hm]
              exact hf1 m q hm
            · intro b q hb
              simp only [List.map_cons, List.mem_cons, not_or] at hb
              rw [ih3 b q hb.2]
              exact hf2 b q (fun he => hb.1 (he.trans hbhead.symm))
            · intro d2 hd2 cs0' hgl
              rcases List.mem_cons.mp hd2 with he | he
              · subst he
                rw [hsrc] at hgl
                injection hgl with hgl
                injection hgl with hgl
                subst hgl
                refine ⟨mtree, hmerge, ?_, ?_⟩
                · rw [hsp, ih3 b0 btail0 hb0notin]
                  exact hpos
                · rw [ihadd1]
                  exact List.mem_append_left _ (by simp)
              · obtain ⟨b', tail', hsp'⟩ : ∃ b' tail', splitPath d2 = b' :: tail' := by
                  rcases hshapes2 d2 he with ⟨b, hb⟩ | ⟨b, c, hb⟩
                  · exact ⟨b, [], hb⟩
                  · exact ⟨b, [c], hb⟩
                have hb'ne : b' ≠ b0 := by
                  intro heq
                  refine hb0notin ?_
                  have hh : dstHead d2 = b' := by simp [dstHead, hsp']
                  rw [← heq, ← hh]
                  exact List.mem_map_of_mem _ he
                have hgl1 : fs2.lookup (backup_dir :: splitPath d2) = some (.dir cs0') := by
                  rw [hf1 backup_dir _ (by decide)]
                  exact hgl
                obtain ⟨mt, hmt1, hmt2, hmt3⟩ := ih4 d2 he cs0' hgl1
                refine ⟨mt, ?_, hmt2, hmt3⟩
                rw [hsp'] at hmt1 ⊢
                rw [hf2 b' tail' hb'ne] at hmt1
                exact hmt1
            · intro d2 hd2 c t hgl
              rcases List.mem_cons.mp hd2 with he | he
              · subst he
                rw [hsrc] at hgl
                simp at hgl
              · refine ih5 d2 he c t ?_
                rw [hf1 backup_dir _ (by decide)]
                exact hgl
            · intro d2 hd2 hgl q
              rcases List.mem_cons.mp hd2 with he | he
              · subst he
                rw [hsrc] at hgl
                cases hgl
              · obtain ⟨b', tail', hsp'⟩ : ∃ b' tail', splitPath d2 = b' :: tail' := by
                  rcases hshapes2 d2 he with ⟨b, hb⟩ | ⟨b, c, hb⟩
                  · exact ⟨b, [], hb⟩
                  · exact ⟨b, [c], hb⟩
                have hb'ne : b' ≠ b0 := by
                  intro heq
                  refine hb0notin ?_
                  have hh : dstHead d2 = b' := by simp [dstHead, hsp']
                  rw [← heq, ← hh]
                  exact List.mem_map_of_mem _ he
                have hgl1 : fs2.lookup (backup_dir :: splitPath d2) = none := by
                  rw [hf1 backup_dir _ (by decide)]
                  exact hgl
                have hq := ih6 d2 he hgl1 q
                rw [hsp', List.cons_append] at hq ⊢
                rw [hq]
                exact hf2 b' (tail' ++ q) hb'ne
            · refine ⟨OutLine.dirCopied d :: add, ?_, ?_⟩
              · rw [ihadd1]
                simp
              · intro o ho
                rcases List.mem_cons.mp ho with he | he
                · exact ⟨d, List.mem_cons_self _ _, he, by rw [hsrc]; simp⟩
                · obtain ⟨d2, hd2, ho1, ho2⟩ := ihadd2 o he
                  refine ⟨d2, List.mem_cons_of_mem _ hd2, ho1, ?_⟩
                  rw [hf1 backup_dir _ (by decide)] at ho2
                  exact ho2
          next e3 hmerge => cases hcopy
      next e2 hcopy => cases h

/-! ## Step characterizations and the run decomposition -/

theorem makedirs_file_cons (c : String) (t : Nat) (n : String) (p : Path) :
    (Entry.file c t).makedirs (n :: p) = .error .notADirectory := by
  simp [Entry.makedirs]

theorem step_ensureDir_ok {s s1 : S} (h : step_ensureDir s = .ok s1) :
    s.fs.makedirs [output_dir] = .ok s1.fs ∧ s1.out = s.out ∧ s1.log = s.log := by
  unfold step_ensureDir at h
  cases hm : s.fs.makedirs [output_dir] with
  | ok fs2 =>
    rw [hm] at h
    injection h with h
    subst h
    exact ⟨rfl, rfl, rfl⟩
  | error e => rw [hm] at h; cases h

theorem ensureDir_shape {cs : List (String × Entry)} {fs2 : Entry}
    (h : (Entry.dir cs).makedirs [output_dir] = .ok fs2) :
    ∃ ds, fs2 = .dir (setChild cs output_dir (.dir ds)) ∧
      (findChild cs output_dir = some (.dir ds) ∨
       (findChild cs output_dir = none ∧ ds = [])) := by
  cases hf : findChild cs output_dir with
  | none =>
    rw [makedirs_one_none hf] at h
    injection h with h
    exact ⟨[], h.symm, Or.inr ⟨rfl, rfl⟩⟩
  | some e =>
    cases e with
    | dir ds =>
      rw [makedirs_one_dir hf] at h
      injection h with h
      exact ⟨ds, h.symm, Or.inl rfl⟩
    | file c t => rw [makedirs_one_file hf] at h; cases h

theorem step_writeSummary_ok {now : String} {s s1 : S}
    (h : step_writeSummary now s = .ok s1) :
    s.fs.writeFileAt [output_dir, "BACKUP_SUMMARY.json"]
        (summaryJson (summary now)) 0 = .ok s1.fs ∧
      s1.out = s.out ∧ s1.log = s.log := by
  unfold step_writeSummary at h
  cases hm : s.fs.writeFileAt [output_dir, "BACKUP_SUMMARY.json"]
      (summaryJson (summary now)) 0 with
  | ok fs2 =>
    rw [hm] at h
    injection h with h
    subst h
    exact ⟨rfl, rfl, rfl⟩
  | error e => rw [hm] at h; cases h

theorem step_writeInstructions_ok {s s1 : S}
    (h : step_writeInstructions s = .ok s1) :
    s.fs.writeFileAt [output_dir, "README.txt"] instructions 0 = .ok s1.fs ∧
      s1.out = s.out ∧ s1.log = s.log := by
  unfold step_writeInstructions at h
  cases hm : s.fs.writeFileAt [output_dir, "README.txt"] instructions 0 with
  | ok fs2 =>
    rw [hm] at h
    injection h with h
    subst h
    exact ⟨rfl, rfl, rfl⟩
  | error e => rw [hm] at h; cases h

theorem step_report_ok {s s1 : S} (h : step_report s = .ok s1) :
    ∃ cs, s.fs.lookup [output_dir] = some (.dir cs) ∧ s1.fs = s.fs ∧
      s1.out = s.out ++ [OutLine.done, OutLine.location output_dir,
        OutLine.sizeReport (childrenSize cs), OutLine.filesReport cs.length] ∧
      s1.log = s.log := by
  unfold step_report at h
  split at h
  next cs hl =>
    injection h with h
    subst h
    exact ⟨cs, hl, rfl, rfl, rfl⟩
  next hl => cases h

theorem runStep_ok_inv {tag : Step} {f : S → Except Err S} {p : S × Option Err} {r : S}
    (h : runStep tag f p = (r, none)) :
    ∃ s, p = (s, none) ∧ f (s.addLog tag) = .ok r := by
  obtain ⟨s, o⟩ := p
  cases o with
  | some e =>
    simp only [runStep] at h
    injection h with h1 h2
    cases h2
  | none =>
    refine ⟨s, rfl, ?_⟩
    simp only [runStep] at h
    split at h
    next s2 hf =>
      injection h with h1 h2
      rw [hf, h1]
    next e hf =>
      injection h with h1 h2
      cases h2

theorem runBody_ok {now : String} {fs0 : Entry} {r : S}
    (h : runBody now fs0 = (r, none)) :
    ∃ s1 s2 s3 s4 s5,
      step_ensureDir ((initS fs0).addLog .ensureDir) = .ok s1 ∧
      step_copyFiles (s1.addLog .copyFiles) = .ok s2 ∧
      step_copyDirs (s2.addLog .copyDirs) = .ok s3 ∧
      step_writeSummary now (s3.addLog .writeSummary) = .ok s4 ∧
      step_writeInstructions (s4.addLog .writeInstructions) = .ok s5 ∧
      step_report (s5.addLog .report) = .ok r := by
  unfold runBody at h
  obtain ⟨w5, hp5, h6⟩ := runStep_ok_inv h
  obtain ⟨w4, hp4, h5⟩ := runStep_ok_inv hp5
  obtain ⟨w3, hp3, h4⟩ := runStep_ok_inv hp4
  obtain ⟨w2, hp2, h3⟩ := runStep_ok_inv hp3
  obtain ⟨w1, hp1, h2⟩ := runStep_ok_inv hp2
  obtain ⟨w0, hp0, h1⟩ := runStep_ok_inv hp1
  injection hp0 with ha hb
  subst ha
  exact ⟨w1, w2, w3, w4, w5, h1, h2, h3, h4, h5, h6⟩

/-! ## Facts about the constant name lists -/

theorem files_nodup : essential_files.Nodup := by decide

theorem files_split : ∀ f ∈ essential_files, splitPath f = [f] := by decide

theorem files_not_dirhead : ∀ f ∈ essential_files, f ∉ dirs_to_copy.map dstHead := by decide

theorem files_not_artifact :
    ∀ f ∈ essential_files, f ≠ "BACKUP_SUMMARY.json" ∧ f ≠ "README.txt" := by decide

theorem dirs_heads_nodup : (dirs_to_copy.map dstHead).Nodup := by decide

theorem dirs_shapes :
    ∀ d ∈ dirs_to_copy, (∃ b, splitPath d = [b]) ∨ (∃ b c, splitPath d = [b, c]) := by
  intro d hd
  simp only [dirs_to_copy, List.mem_cons, List.not_mem_nil, or_false] at hd
  rcases hd with rfl | rfl | rfl
  · exact Or.inl ⟨"server", by decide⟩
  · exact Or.inl ⟨"shared", by decide⟩
  · exact Or.inr ⟨"client", "src", by decide⟩

theorem dirs_head_not_file : ∀ d ∈ dirs_to_copy, dstHead d ∉ essential_files := by decide

theorem dirs_head_not_artifact :
    ∀ d ∈ dirs_to_copy,
      dstHead d ≠ "BACKUP_SUMMARY.json" ∧ dstHead d ≠ "README.txt" := by decide

/-! ## The master description of a successful run -/

theorem run_ok_spec {now : String} {fs0 : Entry} {r : S}
    (h : runBody now fs0 = (r, none)) :
    ∃ cs csfin fadd dadd,
      fs0 = Entry.dir cs ∧
      r.fs.lookup [output_dir] = some (Entry.dir csfin) ∧
      (∀ m q, m ≠ output_dir → r.fs.lookup (m :: q) = fs0.lookup (m :: q)) ∧
      (∀ f ∈ essential_files, ∀ c t,
          fs0.lookup [backup_dir, f] = some (Entry.file c t) →
          r.fs.lookup [output_dir, f] = some (Entry.file c t) ∧
          OutLine.fileCopied f ∈ r.out) ∧
      (∀ f ∈ essential_files, ∀ x, fs0.lookup [backup_dir, f] ≠ some (Entry.dir x)) ∧
      (∀ f ∈ essential_files, fs0.lookup [backup_dir, f] = none →
          r.fs.lookup [output_dir, f] = fs0.lookup [output_dir, f]) ∧
      (∀ d ∈ dirs_to_copy, ∀ cs0,
          fs0.lookup (backup_dir :: splitPath d) = some (Entry.dir cs0) →
          ∃ mtree, copytreeEntry "" (Entry.dir cs0)
              (fs0.lookup (output_dir :: splitPath d)) = .ok mtree ∧
            r.fs.lookup (output_dir :: splitPath d) = some mtree ∧
            OutLine.dirCopied d ∈ r.out) ∧
      (∀ d ∈ dirs_to_copy, ∀ c t,
          fs0.lookup (backup_dir :: splitPath d) ≠ some (Entry.file c t)) ∧
      (∀ d ∈ dirs_to_copy, fs0.lookup (backup_dir :: splitPath d) = none →
          ∀ q, r.fs.lookup (output_dir :: splitPath d ++ q)
                 = fs0.lookup (output_dir :: splitPath d ++ q)) ∧
      r.fs.lookup [output_dir, "BACKUP_SUMMARY.json"]
        = some (Entry.file (summaryJson (summary now)) 0) ∧
      r.fs.lookup [output_dir, "README.txt"] = some (Entry.file instructions 0) ∧
      r.out = [OutLine.creating, OutLine.copyingFiles] ++ fadd
          ++ (OutLine.copyingDirs :: dadd)
          ++ [OutLine.done, OutLine.location output_dir,
              OutLine.sizeReport (childrenSize csfin), OutLine.filesReport csfin.length] ∧
      (∀ o ∈ fadd, ∃ f, f ∈ essential_files ∧ o = OutLine.fileCopied f ∧
          fs0.lookup [backup_dir, f] ≠ none) ∧
      (∀ o ∈ dadd, ∃ d, d ∈ dirs_to_copy ∧ o = OutLine.dirCopied d ∧
          fs0.lookup (backup_dir :: splitPath d) ≠ none) ∧
      r.log = [Step.ensureDir, Step.copyFiles, Step.copyDirs,
               Step.writeSummary, Step.writeInstructions, Step.report] := by
  obtain ⟨s1, s2, s3, s4, s5, h1, h2, h3, h4, h5, h6⟩ := runBody_ok h
  obtain ⟨hm1, hout1, hlog1⟩ := step_ensureDir_ok h1
  have hm1a : fs0.makedirs [output_dir] = .ok s1.fs := hm1
  cases fs0 with
  | file c0 t0 =>
    rw [makedirs_file_cons] at hm1a
    cases hm1a
  | dir cs =>
  obtain ⟨ds, hs1fs, hcase⟩ := ensureDir_shape hm1a
  have hs1out : s1.out = [OutLine.creating] := hout1
  have hs1log : s1.log = [Step.ensureDir] := hlog1
  have hA : ∀ m (q : Path), m ≠ output_dir →
      s1.fs.lookup (m :: q) = (Entry.dir cs).lookup (m :: q) := by
    intro m q hm
    rw [hs1fs]
    exact frame1 _ hm q
  have hB : ∀ b (q : Path),
      s1.fs.lookup (output_dir :: b :: q) = (Entry.dir cs).lookup (output_dir :: b :: q) := by
    intro b q
    rcases hcase with hex | ⟨hnone, hds⟩
    · rw [hs1fs, setChild_eq_of_findChild _ _ _ hex]
    · subst hds
      rw [hs1fs, lookup_cons_some (findChild_setChild_self _ _ _),
          lookup_cons_none (show findChild ([] : List (String × Entry)) b = none from rfl),
          lookup_cons_none hnone]
  -- the essential-file loop
  unfold step_copyFiles at h2
  obtain ⟨F1, F2, F3, F4, F5, F6, ⟨fadd, Fadd1, Fadd2⟩, F8⟩ :=
    copyFilesLoop_ok essential_files
      { s1.addLog Step.copyFiles with
        out := (s1.addLog Step.copyFiles).out ++ [OutLine.copyingFiles] }
      s2 files_nodup files_split
      ⟨_, _, hs1fs, findChild_setChild_self _ _ _⟩ h2
  simp only [S.addLog] at F2 F3 F4 F5 F6 Fadd1 Fadd2 F8
  obtain ⟨cs2, ds2, hs2fs, hout2⟩ := F1
  have hF_out : s2.out = (s1.out ++ [OutLine.copyingFiles]) ++ fadd := Fadd1
  have hF_log : s2.log = s1.log ++ [Step.copyFiles] := F8
  -- the directory loop
  unfold step_copyDirs at h3
  obtain ⟨D1, D2, D3, D4, D5, D6, ⟨dadd, Dadd1, Dadd2⟩, D8⟩ :=
    copyDirsLoop_ok dirs_to_copy
      { s2.addLog Step.copyDirs with
        out := (s2.addLog Step.copyDirs).out ++ [OutLine.copyingDirs] }
      s3 dirs_heads_nodup dirs_shapes
      ⟨_, _, hs2fs, hout2⟩ h3
  simp only [S.addLog] at D2 D3 D4 D5 D6 Dadd1 Dadd2 D8
  obtain ⟨cs3, ds3, hs3fs, hout3⟩ := D1
  have hD_out : s3.out = (s2.out ++ [OutLine.copyingDirs]) ++ dadd := Dadd1
  have hD_log : s3.log = s2.log ++ [Step.copyDirs] := D8
  -- the summary artifact
  obtain ⟨hw4, hout4, hlog4⟩ := step_writeSummary_ok h4
  have hw4a : s3.fs.writeFileAt [output_dir, "BACKUP_SUMMARY.json"]
      (summaryJson (summary now)) 0 = .ok s4.fs := hw4
  rw [hs3fs] at hw4a
  obtain ⟨ds4, hfind4, hs4fs⟩ := writeFileAt2_ok hw4a
  rw [hout3] at hfind4
  injection hfind4 with hfind4
  injection hfind4 with hfind4
  subst hfind4
  have hs4out : s4.out = s3.out := hout4
  have hs4log : s4.log = s3.log ++ [Step.writeSummary] := hlog4
  -- the instructions artifact
  obtain ⟨hw5, hout5, hlog5⟩ := step_writeInstructions_ok h5
  have hw5a : s4.fs.writeFileAt [output_dir, "README.txt"] instructions 0 = .ok s5.fs := hw5
  rw [hs4fs] at hw5a
  obtain ⟨ds5, hfind5, hs5fs⟩ := writeFileAt2_ok hw5a
  rw [findChild_setChild_self _ _ _] at hfind5
  injection hfind5 with hfind5
  injection hfind5 with hfind5
  subst hfind5
  have hs5out : s5.out = s4.out := hout5
  have hs5log : s5.log = s4.log ++ [Step.writeInstructions] := hlog5
  -- the report
  obtain ⟨csfin, hlook6, hfs6, hout6, hlog6⟩ := step_report_ok h6
  have hrfs : r.fs = s5.fs := hfs6
  have hr_out : r.out = s5.out ++ [OutLine.done, OutLine.location output_dir,
      OutLine.sizeReport (childrenSize csfin), OutLine.filesReport csfin.length] := hout6
  have hr_log : r.log = s5.log ++ [Step.report] := hlog6
  have hlook6a : s5.fs.lookup [output_dir] = some (Entry.dir csfin) := hlook6
  -- frames across the artifact writes
  have hart_outer : ∀ m (q : Path), m ≠ output_dir →
      s5.fs.lookup (m :: q) = s3.fs.lookup (m :: q) := by
    intro m q hm
    rw [hs5fs, frame1 _ hm q, frame1 _ hm q, hs3fs]
  have hart_head : ∀ b (q : Path), b ≠ "BACKUP_SUMMARY.json" → b ≠ "README.txt" →
      s5.fs.lookup (output_dir :: b :: q) = s3.fs.lookup (output_dir :: b :: q) := by
    intro b q hbs hbr
    rw [hs5fs, frame2 (findChild_setChild_self _ _ _) b hbr q,
        frame2 hout3 b hbs q, hs3fs]
  have hart_sum : s5.fs.lookup [output_dir, "BACKUP_SUMMARY.json"]
      = some (Entry.file (summaryJson (summary now)) 0) := by
    rw [hs5fs, lookup_cons_some (findChild_setChild_self _ _ _), lookup_one,
        findChild_setChild_ne _ _ _ _ (by decide), findChild_setChild_self]
  have hart_readme : s5.fs.lookup [output_dir, "README.txt"]
      = some (Entry.file instructions 0) := by
    rw [hs5fs, lookup_set2]
    exact lookup_nil _
  -- assemble
  refine ⟨cs, csfin, fadd, dadd, rfl, ?_, ?_, ?_, ?_, ?_, ?_, ?_, ?_, ?_, ?_, ?_, ?_, ?_, ?_⟩
  · rw [hrfs]
    exact hlook6a
  · intro m q hm
    calc r.fs.lookup (m :: q) = s5.fs.lookup (m :: q) := by rw [hrfs]
    _ = s3.fs.lookup (m :: q) := hart_outer m q hm
    _ = s2.fs.lookup (m :: q) := D2 m q hm
    _ = s1.fs.lookup (m :: q) := F2 m q hm
    _ = (Entry.dir cs).lookup (m :: q) := hA m q hm
  · intro f hf c t hsl
    have hsl1 : s1.fs.lookup [backup_dir, f] = some (Entry.file c t) := by
      rw [hA backup_dir [f] (by decide)]
      exact hsl
    obtain ⟨hcp, hmm⟩ := F4 f hf c t hsl1
    constructor
    · calc r.fs.lookup [output_dir, f] = s5.fs.lookup [output_dir, f] := by rw [hrfs]
      _ = s3.fs.lookup [output_dir, f] :=
          hart_head f [] (files_not_artifact f hf).1 (files_not_artifact f hf).2
      _ = s2.fs.lookup [output_dir, f] := D3 f [] (files_not_dirhead f hf)
      _ = some (Entry.file c t) := hcp
    · rw [hr_out, hs5out, hs4out, hD_out]
      exact List.mem_append_left _ (List.mem_append_left _ (List.mem_append_left _ hmm))
  · intro f hf x hgl
    refine F5 f hf x ?_
    rw [hA backup_dir [f] (by decide)]
    exact hgl
  · intro f hf hsl
    have hsl1 : s1.fs.lookup [backup_dir, f] = none := by
      rw [hA backup_dir [f] (by decide)]
      exact hsl
    calc r.fs.lookup [output_dir, f] = s5.fs.lookup [output_dir, f] := by rw [hrfs]
    _ = s3.fs.lookup [output_dir, f] :=
        hart_head f [] (files_not_artifact f hf).1 (files_not_artifact f hf).2
    _ = s2.fs.lookup [output_dir, f] := D3 f [] (files_not_dirhead f hf)
    _ = s1.fs.lookup [output_dir, f] := F6 f hf hsl1 []
    _ = (Entry.dir cs).lookup [output_dir, f] := hB f []
  · intro d hd cs0 hsl
    obtain ⟨b, btail, hsp⟩ : ∃ b btail, splitPath d = b :: btail := by
      rcases dirs_shapes d hd with ⟨b, hb⟩ | ⟨b, c, hb⟩
      · exact ⟨b, [], hb⟩
      · exact ⟨b, [c], hb⟩
    have hbh : dstHead d = b := by simp [dstHead, hsp]
    have hsl2 : s2.fs.lookup (backup_dir :: splitPath d) = some (Entry.dir cs0) := by
      rw [F2 backup_dir (splitPath d) (by decide), hA backup_dir (splitPath d) (by decide)]
      exact hsl
    have hprior : s2.fs.lookup (output_dir :: splitPath d)
        = (Entry.dir cs).lookup (output_dir :: splitPath d) := by
      rw [hsp]
      rw [F3 b btail (hbh ▸ dirs_head_not_file d hd), hB b btail]
    obtain ⟨mtree, hmerge, hdst3, hmm3⟩ := D4 d hd cs0 hsl2
    rw [hprior] at hmerge
    refine ⟨mtree, hmerge, ?_, ?_⟩
    · calc r.fs.lookup (output_dir :: splitPath d)
          = s5.fs.lookup (output_dir :: splitPath d) := by rw [hrfs]
      _ = s3.fs.lookup (output_dir :: splitPath d) := by
          rw [hsp]
          exact hart_head b btail (hbh ▸ (dirs_head_not_artifact d hd).1)
            (hbh ▸ (dirs_head_not_artifact d hd).2)
      _ = some mtree := hdst3
    · rw [hr_out, hs5out, hs4out]
      exact List.mem_append_left _ hmm3
  · intro d hd c t hgl
    refine D5 d hd c t ?_
    rw [F2 backup_dir (splitPath d) (by decide), hA backup_dir (splitPath d) (by decide)]
    exact hgl
  · intro d hd hsl q
    obtain ⟨b, btail, hsp⟩ : ∃ b btail, splitPath d = b :: btail := by
      rcases dirs_shapes d hd with ⟨b, hb⟩ | ⟨b, c, hb⟩
      · exact ⟨b, [], hb⟩
      · exact ⟨b, [c], hb⟩
    have hbh : dstHead d = b := by simp [dstHead, hsp]
    have hsl2 : s2.fs.lookup (backup_dir :: splitPath d) = none := by
      rw [F2 backup_dir (splitPath d) (by decide), hA backup_dir (splitPath d) (by decide)]
      exact hsl
    have hq := D6 d hd hsl2 q
    calc r.fs.lookup (output_dir :: splitPath d ++ q)
        = s5.fs.lookup (output_dir :: splitPath d ++ q) := by rw [hrfs]
    _ = s3.fs.lookup (output_dir :: splitPath d ++ q) := by
        rw [hsp, List.cons_append]
        exact hart_head b (btail ++ q) (hbh ▸ (dirs_head_not_artifact d hd).1)
          (hbh ▸ (dirs_head_not_artifact d hd).2)
    _ = s2.fs.lookup (output_dir :: splitPath d ++ q) := hq
    _ = s1.fs.lookup (output_dir :: splitPath d ++ q) := by
        rw [hsp, List.cons_append]
        exact F3 b (btail ++ q) (hbh ▸ dirs_head_not_file d hd)
    _ = (Entry.dir cs).lookup (output_dir :: splitPath d ++ q) := by
        rw [hsp, List.cons_append]
        exact hB b (btail ++ q)
  · rw [hrfs]
    exact hart_sum
  · rw [hrfs]
    exact hart_readme
  · rw [hr_out, hs5out, hs4out, hD_out, hF_out, hs1out]
    simp
  · intro o ho
    obtain ⟨f, hf, ho1, ho2⟩ := Fadd2 o ho
    refine ⟨f, hf, ho1, ?_⟩
    rw [hA backup_dir [f] (by decide)] at ho2
    exact ho2
  · intro o ho
    obtain ⟨d, hd, ho1, ho2⟩ := Dadd2 o ho
    refine ⟨d, hd, ho1, ?_⟩
    rw [F2 backup_dir (splitPath d) (by decide), hA backup_dir (splitPath d) (by decide)] at ho2
    exact ho2
  · rw [hr_log, hs5log, hs4log, hD_log, hF_log, hs1log]
    rfl

/-! ## Forward construction helpers and log accounting -/

theorem runStep_none_ok {tag : Step} {f : S → Except Err S} {s s2 : S}
    (hf : f (s.addLog tag) = .ok s2) :
    runStep tag f (s, none) = (s2, none) := by
  simp only [runStep, hf]

theorem runStep_err_inv {tag : Step} {f : S → Except Err S} {p : S × Option Err}
    {r : S} {e : Err} (h : runStep tag f p = (r, some e)) :
    p = (r, some e) ∨
    (∃ s, p = (s, none) ∧ r = s.addLog tag ∧ f (s.addLog tag) = .error e) := by
  obtain ⟨s, o⟩ := p
  cases o with
  | some e2 =>
    left
    simp only [runStep] at h
    exact h
  | none =>
    right
    simp only [runStep] at h
    split at h
    next s2 hf =>
      injection h with h1 h2
      cases h2
    next e3 hf =>
      injection h with h1 h2
      injection h2 with h2
      exact ⟨s, rfl, h1.symm, h2 ▸ hf⟩

theorem copyFilesLoop_absent :
    ∀ (L : List String) (s : S),
      (∀ f ∈ L, s.fs.lookup (backup_dir :: splitPath f) = none) →
      copyFilesLoop L s = .ok s := by
  intro L
  induction L with
  | nil => intro s _; rfl
  | cons f rest ih =>
    intro s hab
    simp only [copyFilesLoop, hab f (List.mem_cons_self _ _), Option.isSome_none,
      Bool.false_eq_true, if_false]
    exact ih s (fun g hg => hab g (List.mem_cons_of_mem _ hg))

theorem copyDirsLoop_absent :
    ∀ (L : List String) (s : S),
      (∀ d ∈ L, s.fs.lookup (backup_dir :: splitPath d) = none) →
      copyDirsLoop L s = .ok s := by
  intro L
  induction L with
  | nil => intro s _; rfl
  | cons d rest ih =>
    intro s hab
    simp only [copyDirsLoop, hab d (List.mem_cons_self _ _), Option.isSome_none,
      Bool.false_eq_true, if_false]
    exact ih s (fun g hg => hab g (List.mem_cons_of_mem _ hg))

theorem copyFilesLoop_log :
    ∀ (L : List String) (s s' : S), copyFilesLoop L s = .ok s' → s'.log = s.log := by
  intro L
  induction L with
  | nil =>
    intro s s' h
    injection h with h
    subst h
    rfl
  | cons f rest ih =>
    intro s s' h
    simp only [copyFilesLoop] at h
    split at h
    · split at h
      next fs2 hcp =>
        have h2 := ih _ s' h
        exact h2
      next e hcp => cases h
    · exact ih s s' h

theorem copyDirsLoop_log :
    ∀ (L : List String) (s s' : S), copyDirsLoop L s = .ok s' → s'.log = s.log := by
  intro L
  induction L with
  | nil =>
    intro s s' h
    injection h with h
    subst h
    rfl
  | cons d rest ih =>
    intro s s' h
    simp only [copyDirsLoop] at h
    split at h
    · split at h
      next fs2 hcp =>
        have h2 := ih _ s' h
        exact h2
      next e hcp => cases h
    · exact ih s s' h

theorem step_copyFiles_log {s s' : S} (h : step_copyFiles s = .ok s') :
    s'.log = s.log := by
  unfold step_copyFiles at h
  have h2 := copyFilesLoop_log _ _ _ h
  exact h2

theorem step_copyDirs_log {s s' : S} (h : step_copyDirs s = .ok s') :
    s'.log = s.log := by
  unfold step_copyDirs at h
  have h2 := copyDirsLoop_log _ _ _ h
  exact h2

theorem run_missing_source_ok (now : String) (cs : List (String × Entry))
    (hsrc : findChild cs backup_dir = none)
    (hod : ∀ c t, findChild cs output_dir ≠ some (Entry.file c t))
    (hart : ∀ ds, findChild cs output_dir = some (Entry.dir ds) →
        (∀ es, findChild ds "BACKUP_SUMMARY.json" ≠ some (Entry.dir es)) ∧
        (∀ es, findChild ds "README.txt" ≠ some (Entry.dir es))) :
    ∃ r, runBody now (Entry.dir cs) = (r, none) := by
  obtain ⟨ds1, hmk, hds_sum, hds_readme⟩ :
      ∃ ds1, (Entry.dir cs).makedirs [output_dir]
          = .ok (Entry.dir (setChild cs output_dir (Entry.dir ds1))) ∧
        (∀ es, findChild ds1 "BACKUP_SUMMARY.json" ≠ some (Entry.dir es)) ∧
        (∀ es, findChild ds1 "README.txt" ≠ some (Entry.dir es)) := by
    cases hf : findChild cs output_dir with
    | none =>
      refine ⟨[], makedirs_one_none hf, ?_, ?_⟩ <;> intro es he <;> cases he
    | some e =>
      cases e with
      | file c t => exact absurd hf (hod c t)
      | dir ds2 => exact ⟨ds2, makedirs_one_dir hf, (hart ds2 hf).1, (hart ds2 hf).2⟩
  have hfc1 : findChild (setChild cs output_dir (Entry.dir ds1)) backup_dir = none := by
    rw [findChild_setChild_ne cs output_dir backup_dir (Entry.dir ds1) (by decide)]
    exact hsrc
  have habs1 : ∀ (p : Path),
      (Entry.dir (setChild cs output_dir (Entry.dir ds1))).lookup (backup_dir :: p)
        = none := fun p => lookup_cons_none hfc1 p
  have h1e : step_ensureDir ((initS (Entry.dir cs)).addLog Step.ensureDir)
      = .ok ⟨Entry.dir (setChild cs output_dir (Entry.dir ds1)),
             [OutLine.creating], [Step.ensureDir]⟩ := by
    simp only [step_ensureDir, initS, S.addLog, List.nil_append, hmk]
  have h2e : step_copyFiles
      ((⟨Entry.dir (setChild cs output_dir (Entry.dir ds1)),
         [OutLine.creating], [Step.ensureDir]⟩ : S).addLog Step.copyFiles)
      = .ok ⟨Entry.dir (setChild cs output_dir (Entry.dir ds1)),
             [OutLine.creating, OutLine.copyingFiles],
             [Step.ensureDir, Step.copyFiles]⟩ := by
    unfold step_copyFiles
    exact copyFilesLoop_absent essential_files
      ⟨Entry.dir (setChild cs output_dir (Entry.dir ds1)),
       [OutLine.creating, OutLine.copyingFiles],
       [Step.ensureDir, Step.copyFiles]⟩
      (fun f _ => habs1 (splitPath f))
  have h3e : step_copyDirs
      ((⟨Entry.dir (setChild cs output_dir (Entry.dir ds1)),
         [OutLine.creating, OutLine.copyingFiles],
         [Step.ensureDir, Step.copyFiles]⟩ : S).addLog Step.copyDirs)
      = .ok ⟨Entry.dir (setChild cs output_dir (Entry.dir ds1)),
             [OutLine.creating, OutLine.copyingFiles, OutLine.copyingDirs],
             [Step.ensureDir, Step.copyFiles, Step.copyDirs]⟩ := by
    unfold step_copyDirs
    exact copyDirsLoop_absent dirs_to_copy
      ⟨Entry.dir (setChild cs output_dir (Entry.dir ds1)),
       [OutLine.creating, OutLine.copyingFiles, OutLine.copyingDirs],
       [Step.ensureDir, Step.copyFiles, Step.copyDirs]⟩
      (fun d _ => habs1 (splitPath d))
  have hw4e : (Entry.dir (setChild cs output_dir (Entry.dir ds1))).writeFileAt
      [output_dir, "BACKUP_SUMMARY.json"] (summaryJson (summary now)) 0
      = .ok (Entry.dir (setChild (setChild cs output_dir (Entry.dir ds1)) output_dir
          (Entry.dir (setChild ds1 "BACKUP_SUMMARY.json"
            (Entry.file (summaryJson (summary now)) 0))))) :=
    writeFileAt2_dir (findChild_setChild_self _ _ _) hds_sum _ _
  have h4e : step_writeSummary now
      ((⟨Entry.dir (setChild cs output_dir (Entry.dir ds1)),
         [OutLine.creating, OutLine.copyingFiles, OutLine.copyingDirs],
         [Step.ensureDir, Step.copyFiles, Step.copyDirs]⟩ : S).addLog Step.writeSummary)
      = .ok ⟨Entry.dir (setChild (setChild cs output_dir (Entry.dir ds1)) output_dir
               (Entry.dir (setChild ds1 "BACKUP_SUMMARY.json"
                 (Entry.file (summaryJson (summary now)) 0)))),
             [OutLine.creating, OutLine.copyingFiles, OutLine.copyingDirs],
             [Step.ensureDir, Step.copyFiles, Step.copyDirs, Step.writeSummary]⟩ := by
    simp only [step_writeSummary, S.addLog, List.cons_append, List.nil_append, hw4e]
  have hw5e : (Entry.dir (setChild (setChild cs output_dir (Entry.dir ds1)) output_dir
      (Entry.dir (setChild ds1 "BACKUP_SUMMARY.json"
        (Entry.file (summaryJson (summary now)) 0))))).writeFileAt
      [output_dir, "README.txt"] instructions 0
      = .ok (Entry.dir (setChild (setChild (setChild cs output_dir (Entry.dir ds1))
          output_dir (Entry.dir (setChild ds1 "BACKUP_SUMMARY.json"
            (Entry.file (summaryJson (summary now)) 0)))) output_dir
          (Entry.dir (setChild (setChild ds1 "BACKUP_SUMMARY.json"
            (Entry.file (summaryJson (summary now)) 0)) "README.txt"
            (Entry.file instructions 0))))) := by
    refine writeFileAt2_dir (findChild_setChild_self _ _ _) ?_ _ _
    intro es he
    rw [findChild_setChild_ne _ _ _ _ (by decide)] at he
    exact hds_readme es he
  have h5e : step_writeInstructions
      ((⟨Entry.dir (setChild (setChild cs output_dir (Entry.dir ds1)) output_dir
           (Entry.dir (setChild ds1 "BACKUP_SUMMARY.json"
             (Entry.file (summaryJson (summary now)) 0)))),
         [OutLine.creating, OutLine.copyingFiles, OutLine.copyingDirs],
         [Step.ensureDir, Step.copyFiles, Step.copyDirs, Step.writeSummary]⟩ : S).addLog
           Step.writeInstructions)
      = .ok ⟨Entry.dir (setChild (setChild (setChild cs output_dir (Entry.dir ds1))
               output_dir (Entry.dir (setChild ds1 "BACKUP_SUMMARY.json"
                 (Entry.file (summaryJson (summary now)) 0)))) output_dir
               (Entry.dir (setChild (setChild ds1 "BACKUP_SUMMARY.json"
                 (Entry.file (summaryJson (summary now)) 0)) "README.txt"
                 (Entry.file instructions 0)))),
             [OutLine.creating, OutLine.copyingFiles, OutLine.copyingDirs],
             [Step.ensureDir, Step.copyFiles, Step.copyDirs, Step.writeSummary,
              Step.writeInstructions]⟩ := by
    simp only [step_writeInstructions, S.addLog, List.cons_append, List.nil_append, hw5e]
  have hrep : (Entry.dir (setChild (setChild (setChild cs output_dir (Entry.dir ds1))
      output_dir (Entry.dir (setChild ds1 "BACKUP_SUMMARY.json"
        (Entry.file (summaryJson (summary now)) 0)))) output_dir
      (Entry.dir (setChild (setChild ds1 "BACKUP_SUMMARY.json"
        (Entry.file (summaryJson (summary now)) 0)) "README.txt"
        (Entry.file instructions 0))))).lookup [output_dir]
      = some (Entry.dir (setChild (setChild ds1 "BACKUP_SUMMARY.json"
          (Entry.file (summaryJson (summary now)) 0)) "README.txt"
          (Entry.file instructions 0))) := by
    rw [lookup_one]
    exact findChild_setChild_self _ _ _
  have h6e : step_report
      ((⟨Entry.dir (setChild (setChild (setChild cs output_dir (Entry.dir ds1))
           output_dir (Entry.dir (setChild ds1 "BACKUP_SUMMARY.json"
             (Entry.file (summaryJson (summary now)) 0)))) output_dir
           (Entry.dir (setChild (setChild ds1 "BACKUP_SUMMARY.json"
             (Entry.file (summaryJson (summary now)) 0)) "README.txt"
             (Entry.file instructions 0)))),
         [OutLine.creating, OutLine.copyingFiles, OutLine.copyingDirs],
         [Step.ensureDir, Step.copyFiles, Step.copyDirs, Step.writeSummary,
          Step.writeInstructions]⟩ : S).addLog Step.report)
      = .ok ⟨Entry.dir (setChild (setChild (setChild cs output_dir (Entry.dir ds1))
               output_dir (Entry.dir (setChild ds1 "BACKUP_SUMMARY.json"
                 (Entry.file (summaryJson (summary now)) 0)))) output_dir
               (Entry.dir (setChild (setChild ds1 "BACKUP_SUMMARY.json"
                 (Entry.file (summaryJson (summary now)) 0)) "README.txt"
                 (Entry.file instructions 0)))),
             [OutLine.creating, OutLine.copyingFiles, OutLine.copyingDirs,
              OutLine.done, OutLine.location output_dir,
              OutLine.sizeReport (childrenSize (setChild (setChild ds1
                "BACKUP_SUMMARY.json" (Entry.file (summaryJson (summary now)) 0))
                "README.txt" (Entry.file instructions 0))),
              OutLine.filesReport (setChild (setChild ds1 "BACKUP_SUMMARY.json"
                (Entry.file (summaryJson (summary now)) 0)) "README.txt"
                (Entry.file instructions 0)).length],
             [Step.ensureDir, Step.copyFiles, Step.copyDirs, Step.writeSummary,
              Step.writeInstructions, Step.report]⟩ := by
    simp only [step_report, S.addLog, List.cons_append, List.nil_append, hrep]
  exact ⟨_, by
    unfold runBody
    rw [runStep_none_ok h1e, runStep_none_ok h2e, runStep_none_ok h3e,
        runStep_none_ok h4e, runStep_none_ok h5e, runStep_none_ok h6e]⟩

/-! ## The claims -/

/-- C1: for every name in the 8-entry essential-file list, a source file
present at SourceRoot/name is copied with its content and modification
time to OutputRoot/name and produces its progress line; an absent name
produces no progress line and its loop iteration is a no-op, so the
absence of any individual file never aborts the batch; after a completed
run every essential file present in the source has an identical copy in
the output. -/
theorem C1_essential_file_handling (now : String) (fs0 : Entry) (r : S)
    (hok : runBody now fs0 = (r, none)) :
    (∀ f ∈ essential_files,
      (∀ c t, fs0.lookup [backup_dir, f] = some (Entry.file c t) →
          r.fs.lookup [output_dir, f] = some (Entry.file c t) ∧
          OutLine.fileCopied f ∈ r.out) ∧
      (fs0.lookup [backup_dir, f] = none → OutLine.fileCopied f ∉ r.out)) ∧
    (∀ (L : List String) (s : S) (f : String),
        s.fs.lookup (backup_dir :: splitPath f) = none →
        copyFilesLoop (f :: L) s = copyFilesLoop L s) := by
  obtain ⟨cs, csfin, fadd, dadd, hfs0, -, -, M4, -, -, -, -, -, -, -, M12, M13, M14, -⟩ :=
    run_ok_spec hok
  subst hfs0
  refine ⟨?_, ?_⟩
  · intro f hf
    refine ⟨M4 f hf, ?_⟩
    intro hnone hmem
    rw [M12] at hmem
    simp at hmem
    rcases hmem with hm | hm
    · obtain ⟨g, hg, he, hne⟩ := M13 _ hm
      injection he with he
      subst he
      exact hne hnone
    · obtain ⟨d2, hd2, he, -⟩ := M14 _ hm
      simp at he
  · intro L s f hnone
    simp only [copyFilesLoop, hnone, Option.isSome_none, Bool.false_eq_true, if_false]

/-- C2 (corrected): for every relative directory path in the list, a source
directory present under SourceRoot is merged recursively into the same
relative path under OutputRoot and one progress line is emitted; an absent
source directory is skipped silently with no progress line.  A file of the
source subtree lands at the mirrored relative path with identical content
(overwriting a same-named destination file) when no pre-existing directory
occupies that destination path; a source file whose mirrored destination is
a pre-existing directory is instead copied silently inside that directory
under its own basename (`shutil.copy2` re-targets a directory destination),
so the original claim that every source file ends up at the mirrored path
fails on such runs.  Destination-only files are left untouched provided no
source file sits at a prefix of their path (a nested copy can overwrite one
that does). -/
theorem C2_directory_merge (now : String) (fs0 : Entry) (r : S)
    (hok : runBody now fs0 = (r, none)) (hwf : fs0.wfb = true) :
    ∀ d ∈ dirs_to_copy,
      (∀ tree, fs0.lookup (backup_dir :: splitPath d) = some tree →
        (∀ p c t, tree.lookup p = some (Entry.file c t) →
            (∀ D, fs0.lookup ((output_dir :: splitPath d) ++ p) ≠ some (Entry.dir D)) →
            r.fs.lookup ((output_dir :: splitPath d) ++ p) = some (Entry.file c t)) ∧
        (∀ p c t D, tree.lookup p = some (Entry.file c t) →
            fs0.lookup ((output_dir :: splitPath d) ++ p) = some (Entry.dir D) →
            r.fs.lookup ((output_dir :: splitPath d) ++ (p ++ [lastD p ""]))
              = some (Entry.file c t)) ∧
        (∀ p c t, fs0.lookup ((output_dir :: splitPath d) ++ p) = some (Entry.file c t) →
            tree.lookup p = none →
            (∀ q1 q2 c2 t2, p = q1 ++ q2 → tree.lookup q1 ≠ some (Entry.file c2 t2)) →
            r.fs.lookup ((output_dir :: splitPath d) ++ p) = some (Entry.file c t)) ∧
        OutLine.dirCopied d ∈ r.out) ∧
      (fs0.lookup (backup_dir :: splitPath d) = none → OutLine.dirCopied d ∉ r.out) := by
  obtain ⟨cs, csfin, fadd, dadd, hfs0, -, -, -, -, -, M7, M8, -, -, -, M12, M13, M14, -⟩ :=
    run_ok_spec hok
  subst hfs0
  intro d hd
  constructor
  · intro tree hsl
    cases tree with
    | file c t => exact absurd hsl (M8 d hd c t)
    | dir cs0 =>
      obtain ⟨mtree, hmerge, hdst, hmm⟩ := M7 d hd cs0 hsl
      have hwt : (Entry.dir cs0).wfb = true := wfb_lookup hwf hsl
      refine ⟨?_, ?_, ?_, hmm⟩
      · intro p c t hp hnd
        rw [lookup_append, hdst]
        refine copytreeEntry_mirror _ hwt "" _ _ hmerge p c t hp ?_
        intro D hD
        refine hnd D ?_
        rw [lookup_append_olookup]
        exact hD
      · intro p c t D hp hD
        rw [lookup_append, hdst]
        refine copytreeEntry_nests _ hwt "" _ _ hmerge p c t D hp ?_
        rw [← lookup_append_olookup]
        exact hD
      · intro p c t hp hnone hpre
        rw [lookup_append] at hp
        cases hprior : (Entry.dir cs).lookup (output_dir :: splitPath d) with
        | none => rw [hprior] at hp; cases hp
        | some X =>
          rw [hprior] at hp
          rw [hprior] at hmerge
          rw [lookup_append, hdst]
          exact copytreeEntry_preserves _ hwt "" X mtree hmerge p c t hp hnone hpre
  · intro hnone hmem
    rw [M12] at hmem
    simp at hmem
    rcases hmem with hm | hm
    · obtain ⟨g, hg, he, -⟩ := M13 _ hm
      simp at he
    · obtain ⟨d2, hd2, he, hne⟩ := M14 _ hm
      injection he with he
      subst he
      exact hne hnone

/-- C3: when SourceRoot does not exist, the run still completes normally:
the output directory is created, both generated artifacts are written into
it, and nothing is copied (zero copy-progress lines). The hypotheses rule
out only the unrelated fatal filesystem errors the spec treats as fatal
for every run (a regular file blocking the output-directory name, or a
directory blocking one of the two artifact names). -/
theorem C3_missing_source_completes (now : String) (cs : List (String × Entry))
    (hsrc : findChild cs backup_dir = none)
    (hod : ∀ c t, findChild cs output_dir ≠ some (Entry.file c t))
    (hart : ∀ ds, findChild cs output_dir = some (Entry.dir ds) →
        (∀ es, findChild ds "BACKUP_SUMMARY.json" ≠ some (Entry.dir es)) ∧
        (∀ es, findChild ds "README.txt" ≠ some (Entry.dir es))) :
    ∃ r, runBody now (Entry.dir cs) = (r, none) ∧
      (∃ csfin, r.fs.lookup [output_dir] = some (Entry.dir csfin)) ∧
      r.fs.lookup [output_dir, "BACKUP_SUMMARY.json"]
        = some (Entry.file (summaryJson (summary now)) 0) ∧
      r.fs.lookup [output_dir, "README.txt"] = some (Entry.file instructions 0) ∧
      (∀ f, OutLine.fileCopied f ∉ r.out) ∧
      (∀ d, OutLine.dirCopied d ∉ r.out) := by
  obtain ⟨r, hrun⟩ := run_missing_source_ok now cs hsrc hod hart
  obtain ⟨cs', csfin, fadd, dadd, hfs0, M2, -, -, -, -, -, -, -, M10, M11, M12, M13, M14, -⟩ :=
    run_ok_spec hrun
  injection hfs0 with hcs
  subst hcs
  refine ⟨r, hrun, ⟨csfin, M2⟩, M10, M11, ?_, ?_⟩
  · intro f hmem
    rw [M12] at hmem
    simp at hmem
    rcases hmem with hm | hm
    · obtain ⟨g, hg, -, hne⟩ := M13 _ hm
      exact hne (lookup_cons_none hsrc [g])
    · obtain ⟨d2, hd2, he, -⟩ := M14 _ hm
      simp at he
  · intro d hmem
    rw [M12] at hmem
    simp at hmem
    rcases hmem with hm | hm
    · obtain ⟨g, hg, he, -⟩ := M13 _ hm
      simp at he
    · obtain ⟨d2, hd2, -, hne⟩ := M14 _ hm
      exact hne (lookup_cons_none hsrc (splitPath d2))

/-- C4: the serialized summary's count and size fields are the fixed
literal strings "996", "46", "3442" and "3.3GB" in every run, regardless
of the filesystem contents; only the backup_date field depends on the run
and equals the timestamp captured at call time; the run writes exactly
this serialized record to BACKUP_SUMMARY.json inside the output
directory. -/
theorem C4_summary_fixed_literals (now : String) (fs0 : Entry) (r : S)
    (hok : runBody now fs0 = (r, none)) :
    (summary now).total_members = "996" ∧
    (summary now).total_users = "46" ∧
    (summary now).upload_files = "3442" ∧
    (summary now).backup_size = "3.3GB" ∧
    (summary now).backup_date = now ∧
    r.fs.lookup [output_dir, "BACKUP_SUMMARY.json"]
      = some (Entry.file (summaryJson (summary now)) 0) := by
  obtain ⟨cs, csfin, fadd, dadd, -, -, -, -, -, -, -, -, -, M10, -, -, -, -, -⟩ :=
    run_ok_spec hok
  exact ⟨rfl, rfl, rfl, rfl, rfl, M10⟩

/-- C5: running the assembler twice in succession against an unchanged
SourceRoot leaves the essential-file and essential-directory contents of
OutputRoot byte-identical to those after a single run; among the generated
artifacts only the JSON summary's backup_date field can differ between the
two runs (the summary records of the runs agree on every other field). -/
theorem C5_idempotent (now1 now2 : String) (fs0 : Entry) (r1 r2 : S)
    (hwf : fs0.wfb = true)
    (h1 : runBody now1 fs0 = (r1, none))
    (h2 : runBody now2 r1.fs = (r2, none)) :
    (∀ f ∈ essential_files,
        r2.fs.lookup [output_dir, f] = r1.fs.lookup [output_dir, f]) ∧
    (∀ d ∈ dirs_to_copy, ∀ q,
        r2.fs.lookup (output_dir :: splitPath d ++ q)
          = r1.fs.lookup (output_dir :: splitPath d ++ q)) ∧
    r2.fs.lookup [output_dir, "README.txt"] = r1.fs.lookup [output_dir, "README.txt"] ∧
    r1.fs.lookup [output_dir, "BACKUP_SUMMARY.json"]
      = some (Entry.file (summaryJson (summary now1)) 0) ∧
    r2.fs.lookup [output_dir, "BACKUP_SUMMARY.json"]
      = some (Entry.file (summaryJson (summary now2)) 0) ∧
    summary now1 = { summary now2 with backup_date := now1 } := by
  obtain ⟨cs, csfin1, fadd1, dadd1, hfs0, -, A3, A4, A5, -, A7, A8, -, A10, A11, -, -, -, -⟩ :=
    run_ok_spec h1
  obtain ⟨cs2', csfin2, fadd2, dadd2, -, -, -, B4, -, B6, B7, -, B9, B10, B11, -, -, -, -⟩ :=
    run_ok_spec h2
  subst hfs0
  refine ⟨?_, ?_, ?_, A10, B10, rfl⟩
  · intro f hf
    cases hsl : (Entry.dir cs).lookup [backup_dir, f] with
    | none =>
      have hsl1 : r1.fs.lookup [backup_dir, f] = none := by
        rw [A3 backup_dir [f] (by decide)]
        exact hsl
      exact B6 f hf hsl1
    | some e =>
      cases e with
      | dir x => exact absurd hsl (A5 f hf x)
      | file c t =>
        have hsl1 : r1.fs.lookup [backup_dir, f] = some (Entry.file c t) := by
          rw [A3 backup_dir [f] (by decide)]
          exact hsl
        rw [(B4 f hf c t hsl1).1, (A4 f hf c t hsl).1]
  · intro d hd q
    cases hsl : (Entry.dir cs).lookup (backup_dir :: splitPath d) with
    | none =>
      have hsl1 : r1.fs.lookup (backup_dir :: splitPath d) = none := by
        rw [A3 backup_dir (splitPath d) (by decide)]
        exact hsl
      exact B9 d hd hsl1 q
    | some e =>
      cases e with
      | file c t => exact absurd hsl (A8 d hd c t)
      | dir cs0 =>
        obtain ⟨m1, hmerge1, hdst1, -⟩ := A7 d hd cs0 hsl
        have hsl1 : r1.fs.lookup (backup_dir :: splitPath d) = some (Entry.dir cs0) := by
          rw [A3 backup_dir (splitPath d) (by decide)]
          exact hsl
        obtain ⟨m2, hmerge2, hdst2, -⟩ := B7 d hd cs0 hsl1
        rw [hdst1] at hmerge2
        rw [copytreeEntry_stable _ (wfb_lookup hwf hsl) "" _ _ hmerge1] at hmerge2
        injection hmerge2 with hm12
        subst hm12
        rw [lookup_append, lookup_append, hdst1, hdst2]
  · rw [B11, A11]

/-- C6: the reported total size equals the byte sum over a recursive walk
of the final output tree (measured after both artifacts are written), and
the reported file count equals the number of immediate entries directly
under the output directory. -/
theorem C6_report_totals (now : String) (fs0 : Entry) (r : S)
    (hok : runBody now fs0 = (r, none)) :
    ∃ csfin, r.fs.lookup [output_dir] = some (Entry.dir csfin) ∧
      OutLine.sizeReport ((Entry.dir csfin).totalSize) ∈ r.out ∧
      OutLine.filesReport csfin.length ∈ r.out := by
  obtain ⟨cs, csfin, fadd, dadd, -, M2, -, -, -, -, -, -, -, -, -, M12, -, -, -⟩ :=
    run_ok_spec hok
  refine ⟨csfin, M2, ?_, ?_⟩
  · rw [show (Entry.dir csfin).totalSize = childrenSize csfin from rfl, M12]
    simp
  · rw [M12]
    simp

/-- C7: for a source containing only a 10-byte `package.json`, none of the
listed directories, and no pre-existing output directory, the run
completes and the output directory holds exactly `package.json` (identical
content and mtime), `BACKUP_SUMMARY.json` and `README.txt`, in that order,
and the reported immediate entry count is 3. -/
theorem C7_package_json_scenario :
    (runBody "2025-07-29T01:45:31" fs7).2 = none ∧
    ("0123456789" : String).length = 10 ∧
    (runBody "2025-07-29T01:45:31" fs7).1.fs.lookup [output_dir, "package.json"]
      = some (Entry.file "0123456789" 5) ∧
    (∃ csf, (runBody "2025-07-29T01:45:31" fs7).1.fs.lookup [output_dir]
        = some (Entry.dir csf) ∧
      csf.map Prod.fst = ["package.json", "BACKUP_SUMMARY.json", "README.txt"]) ∧
    OutLine.filesReport 3 ∈ (runBody "2025-07-29T01:45:31" fs7).1.out := by
  refine ⟨rfl, rfl, rfl, ⟨_, rfl, rfl⟩, ?_⟩
  decide

/-- C8: every run enters the six phases in the strict linear order
ensureDir, copyFiles, copyDirs, writeSummary, writeInstructions, report:
the phase log of any run (successful or aborted) is a prefix of that
sequence, no phase repeats or returns, and a run that completes without an
uncaught exception has entered exactly all six in order. -/
theorem C8_linear_phase_order (now : String) (fs0 : Entry) (r : S) (err : Option Err)
    (h : runBody now fs0 = (r, err)) :
    (∃ t, [Step.ensureDir, Step.copyFiles, Step.copyDirs, Step.writeSummary,
           Step.writeInstructions, Step.report] = r.log ++ t) ∧
    (err = none → r.log = [Step.ensureDir, Step.copyFiles, Step.copyDirs,
        Step.writeSummary, Step.writeInstructions, Step.report]) := by
  cases err with
  | none =>
    obtain ⟨cs, csfin, fadd, dadd, -, -, -, -, -, -, -, -, -, -, -, -, -, -, M15⟩ :=
      run_ok_spec h
    exact ⟨⟨[], by rw [M15, List.append_nil]⟩, fun _ => M15⟩
  | some e =>
    refine ⟨?_, fun hc => by cases hc⟩
    unfold runBody at h
    rcases runStep_err_inv h with h5 | ⟨s5, hp5, hr, -⟩
    · rcases runStep_err_inv h5 with h4 | ⟨s4, hp4, hr, -⟩
      · rcases runStep_err_inv h4 with h3 | ⟨s3, hp3, hr, -⟩
        · rcases runStep_err_inv h3 with h2 | ⟨s2, hp2, hr, -⟩
          · rcases runStep_err_inv h2 with h1 | ⟨s1, hp1, hr, -⟩
            · rcases runStep_err_inv h1 with h0 | ⟨s0, hp0, hr, -⟩
              · injection h0 with ha hb
                cases hb
              · injection hp0 with ha hb
                subst ha
                subst hr
                exact ⟨[Step.copyFiles, Step.copyDirs, Step.writeSummary,
                        Step.writeInstructions, Step.report], rfl⟩
            · obtain ⟨w0, hq0, k1⟩ := runStep_ok_inv hp1
              injection hq0 with ha hb
              subst ha
              have l1 : s1.log = [Step.ensureDir] := (step_ensureDir_ok k1).2.2
              subst hr
              refine ⟨[Step.copyDirs, Step.writeSummary,
                       Step.writeInstructions, Step.report], ?_⟩
              rw [show (s1.addLog Step.copyFiles).log
                    = s1.log ++ [Step.copyFiles] from rfl, l1]
              rfl
          · obtain ⟨w1, hq1, k2⟩ := runStep_ok_inv hp2
            obtain ⟨w0, hq0, k1⟩ := runStep_ok_inv hq1
            injection hq0 with ha hb
            subst ha
            have l1 : w1.log = [Step.ensureDir] := (step_ensureDir_ok k1).2.2
            have l2 : s2.log = w1.log ++ [Step.copyFiles] := step_copyFiles_log k2
            subst hr
            refine ⟨[Step.writeSummary, Step.writeInstructions, Step.report], ?_⟩
            rw [show (s2.addLog Step.copyDirs).log
                  = s2.log ++ [Step.copyDirs] from rfl, l2, l1]
            rfl
        · obtain ⟨w2, hq2, k3⟩ := runStep_ok_inv hp3
          obtain ⟨w1, hq1, k2⟩ := runStep_ok_inv hq2
          obtain ⟨w0, hq0, k1⟩ := runStep_ok_inv hq1
          injection hq0 with ha hb
          subst ha
          have l1 : w1.log = [Step.ensureDir] := (step_ensureDir_ok k1).2.2
          have l2 : w2.log = w1.log ++ [Step.copyFiles] := step_copyFiles_log k2
          have l3 : s3.log = w2.log ++ [Step.copyDirs] := step_copyDirs_log k3
          subst hr
          refine ⟨[Step.writeInstructions, Step.report], ?_⟩
          rw [show (s3.addLog Step.writeSummary).log
                = s3.log ++ [Step.writeSummary] from rfl, l3, l2, l1]
          rfl
      · obtain ⟨w3, hq3, k4⟩ := runStep_ok_inv hp4
        obtain ⟨w2, hq2, k3⟩ := runStep_ok_inv hq3
        obtain ⟨w1, hq1, k2⟩ := runStep_ok_inv hq2
        obtain ⟨w0, hq0, k1⟩ := runStep_ok_inv hq1
        injection hq0 with ha hb
        subst ha
        have l1 : w1.log = [Step.ensureDir] := (step_ensureDir_ok k1).2.2
        have l2 : w2.log = w1.log ++ [Step.copyFiles] := step_copyFiles_log k2
        have l3 : w3.log = w2.log ++ [Step.copyDirs] := step_copyDirs_log k3
        have l4 : s4.log = w3.log ++ [Step.writeSummary] := (step_writeSummary_ok k4).2.2
        subst hr
        refine ⟨[Step.report], ?_⟩
        rw [show (s4.addLog Step.writeInstructions).log
              = s4.log ++ [Step.writeInstructions] from rfl, l4, l3, l2, l1]
        rfl
    · obtain ⟨w4, hq4, k5⟩ := runStep_ok_inv hp5
      obtain ⟨w3, hq3, k4⟩ := runStep_ok_inv hq4
      obtain ⟨w2, hq2, k3⟩ := runStep_ok_inv hq3
      obtain ⟨w1, hq1, k2⟩ := runStep_ok_inv hq2
      obtain ⟨w0, hq0, k1⟩ := runStep_ok_inv hq1
      injection hq0 with ha hb
      subst ha
      have l1 : w1.log = [Step.ensureDir] := (step_ensureDir_ok k1).2.2
      have l2 : w2.log = w1.log ++ [Step.copyFiles] := step_copyFiles_log k2
      have l3 : w3.log = w2.log ++ [Step.copyDirs] := step_copyDirs_log k3
      have l4 : w4.log = w3.log ++ [Step.writeSummary] := (step_writeSummary_ok k4).2.2
      have l5 : s5.log = w4.log ++ [Step.writeInstructions] :=
        (step_writeInstructions_ok k5).2.2
      subst hr
      refine ⟨[], ?_⟩
      rw [show (s5.addLog Step.report).log = s5.log ++ [Step.report] from rfl,
          l5, l4, l3, l2, l1]
      rfl

/-- C9: the skip condition for a copy source is a plain existence check,
not a type check: if an essential-file path exists but is a directory, or
an essential-directory path exists but is a regular file, the copy is
still attempted and the run aborts with an uncaught error. -/
theorem C9_exists_check_not_type_check (now : String) (fs0 : Entry)
    (f : String) (hf : f ∈ essential_files) (d : String) (hd : d ∈ dirs_to_copy)
    (hcase : (∃ x, fs0.lookup (backup_dir :: splitPath f) = some (Entry.dir x)) ∨
             (∃ c t, fs0.lookup (backup_dir :: splitPath d) = some (Entry.file c t))) :
    ∃ e, (runBody now fs0).2 = some e := by
  cases herr : (runBody now fs0).2 with
  | some e => exact ⟨e, rfl⟩
  | none =>
    have hok : runBody now fs0 = ((runBody now fs0).1, none) := by
      rw [← herr]
    obtain ⟨cs, csfin, fadd, dadd, -, -, -, -, M5, -, -, M8, -, -, -, -, -, -, -⟩ :=
      run_ok_spec hok
    rcases hcase with ⟨x, hx⟩ | ⟨c, t, hct⟩
    · rw [files_split f hf] at hx
      exact absurd hx (M5 f hf x)
    · exact absurd hct (M8 d hd c t)

/-- C10: on every run that completes without an uncaught exception, the
entry operation returns the constant relative path "downloadable_backup",
independently of the filesystem contents; every path the program touches
is a compiled-in name resolved relative to the working directory. -/
theorem C10_returns_output_dir (now : String) (fs0 : Entry)
    (hok : (create_downloadable_backup now fs0).err = none) :
    (create_downloadable_backup now fs0).ret = some output_dir ∧
    output_dir = "downloadable_backup" := by
  cases hres : runBody now fs0 with
  | mk s o =>
    cases o with
    | none =>
      constructor
      · simp [create_downloadable_backup, hres]
      · rfl
    | some e =>
      exact absurd hok (by simp [create_downloadable_backup, hres])

/-! ## Concrete instances of the claims -/

/-- Instance of C1 on a concrete run: the present essential file is copied
with identical content and mtime. -/
theorem C1_witness :
    (runBody "T" fsW).1.fs.lookup [output_dir, "package.json"]
      = some (Entry.file "0123456789" 5) :=
  (((C1_essential_file_handling "T" fsW (runBody "T" fsW).1 rfl).1
    "package.json" (by decide)).1 "0123456789" 5 rfl).1

/-- Instance of C2 on a concrete run: a file of the copied directory tree
whose mirrored destination is unoccupied appears at the mirrored path. -/
theorem C2_witness :
    (runBody "T" fsW).1.fs.lookup ((output_dir :: splitPath "server") ++ ["index.js"])
      = some (Entry.file "code" 7) := by
  refine (((C2_directory_merge "T" fsW (runBody "T" fsW).1 rfl (by decide)) "server"
      (by decide)).1 (Entry.dir [("index.js", Entry.file "code" 7)]) rfl).1
    ["index.js"] "code" 7 rfl ?_
  intro D hD
  rw [show fsW.lookup ((output_dir :: splitPath "server") ++ ["index.js"])
      = none from rfl] at hD
  cases hD

/-- Counterexample to the original C2 claim: on `fsC2` the run completes
successfully and prints the directory progress line, yet the source file
`server/x` does not end up at the mirrored relative path (a pre-existing
directory sits there); it is nested inside that directory instead. -/
theorem C2_counterexample :
    fsC2.wfb = true ∧
    fsC2.lookup [backup_dir, "server", "x"] = some (Entry.file "data" 3) ∧
    (runBody "T" fsC2).2 = none ∧
    OutLine.dirCopied "server" ∈ (runBody "T" fsC2).1.out ∧
    (runBody "T" fsC2).1.fs.lookup [output_dir, "server", "x"]
      = some (Entry.dir [("x", Entry.file "data" 3)]) ∧
    (runBody "T" fsC2).1.fs.lookup [output_dir, "server", "x"]
      ≠ some (Entry.file "data" 3) ∧
    (runBody "T" fsC2).1.fs.lookup [output_dir, "server", "x", "x"]
      = some (Entry.file "data" 3) := by
  refine ⟨rfl, rfl, rfl, by decide, rfl, ?_, rfl⟩
  intro h
  rw [show (runBody "T" fsC2).1.fs.lookup [output_dir, "server", "x"]
      = some (Entry.dir [("x", Entry.file "data" 3)]) from rfl] at h
  cases h

/-- Instance of C3: with an empty working directory the run completes and
writes only the two artifacts. -/
theorem C3_witness :
    ∃ r, runBody "T" (Entry.dir []) = (r, none) ∧
      (∃ csfin, r.fs.lookup [output_dir] = some (Entry.dir csfin)) ∧
      r.fs.lookup [output_dir, "BACKUP_SUMMARY.json"]
        = some (Entry.file (summaryJson (summary "T")) 0) ∧
      r.fs.lookup [output_dir, "README.txt"] = some (Entry.file instructions 0) ∧
      (∀ f, OutLine.fileCopied f ∉ r.out) ∧
      (∀ d, OutLine.dirCopied d ∉ r.out) :=
  C3_missing_source_completes "T" [] rfl (fun _ _ h => Option.noConfusion h)
    (fun _ h => Option.noConfusion h)

/-- Instance of C4 on a concrete run. -/
theorem C4_witness :
    (summary "T").total_members = "996" ∧
    (summary "T").total_users = "46" ∧
    (summary "T").upload_files = "3442" ∧
    (summary "T").backup_size = "3.3GB" ∧
    (summary "T").backup_date = "T" ∧
    (runBody "T" fsW).1.fs.lookup [output_dir, "BACKUP_SUMMARY.json"]
      = some (Entry.file (summaryJson (summary "T")) 0) :=
  C4_summary_fixed_literals "T" fsW (runBody "T" fsW).1 rfl

/-- Instance of C5 on a concrete double run. -/
theorem C5_witness :
    (runBody "B" (runBody "A" fsW).1.fs).1.fs.lookup [output_dir, "package.json"]
      = (runBody "A" fsW).1.fs.lookup [output_dir, "package.json"] ∧
    summary "A" = { summary "B" with backup_date := "A" } := by
  have H := C5_idempotent "A" "B" fsW (runBody "A" fsW).1
    (runBody "B" (runBody "A" fsW).1.fs).1 (by decide) rfl rfl
  exact ⟨H.1 "package.json" (by decide), H.2.2.2.2.2⟩

/-- Instance of C6 on a concrete run. -/
theorem C6_witness :
    ∃ csfin, (runBody "T" fsW).1.fs.lookup [output_dir] = some (Entry.dir csfin) ∧
      OutLine.sizeReport ((Entry.dir csfin).totalSize) ∈ (runBody "T" fsW).1.out ∧
      OutLine.filesReport csfin.length ∈ (runBody "T" fsW).1.out :=
  C6_report_totals "T" fsW (runBody "T" fsW).1 rfl

/-- Instance of C8 on a concrete run. -/
theorem C8_witness :
    (∃ t, [Step.ensureDir, Step.copyFiles, Step.copyDirs, Step.writeSummary,
           Step.writeInstructions, Step.report]
        = (runBody "T" (Entry.dir [])).1.log ++ t) ∧
    ((runBody "T" (Entry.dir [])).2 = none →
      (runBody "T" (Entry.dir [])).1.log
        = [Step.ensureDir, Step.copyFiles, Step.copyDirs,
           Step.writeSummary, Step.writeInstructions, Step.report]) :=
  C8_linear_phase_order "T" (Entry.dir []) (runBody "T" (Entry.dir [])).1
    (runBody "T" (Entry.dir [])).2 rfl

/-- Instance of C9: a directory sitting at the first essential-file path
makes the run abort with an uncaught error. -/
theorem C9_witness : ∃ e, (runBody "T" fsW9).2 = some e :=
  C9_exists_check_not_type_check "T" fsW9 "package.json" (by decide) "server"
    (by decide) (Or.inl ⟨[], rfl⟩)

/-- Instance of C10 on a concrete run. -/
theorem C10_witness :
    (create_downloadable_backup "T" fsW).ret = some output_dir ∧
    output_dir = "downloadable_backup" :=
  C10_returns_output_dir "T" fsW rfl

end Backup
